import Mathlib

/-!
Query-to-cache gateway of the product catalogue service.

A shallow embedding of `src/routes/products.js` (with the parts of
`src/config/index.js` and `src/database/index.js` it relies on) together with
the JavaScript built-ins the handlers call: string comparison by UTF-16 code
units, `Array.prototype.sort`, ordinary-object property order,
`String.prototype.toUpperCase`, `Number::toString`, `JSON.stringify` and
`JSON.parse`.

JavaScript strings are modelled by `String`; every string that reaches the
handlers is decoded from a URL or produced by the handlers themselves, so it is
well-formed Unicode.
-/

namespace ProductsGateway

/-! ## JavaScript values -/

/-- JavaScript values that the handlers build, serialise and read back.
A number is `num n` when it is an integer within the safe range, and otherwise
`dec negative digits point`, which names it by the decimal that
`Number::toString` prints for it: the significant digits and the position of the
decimal point, the value being `0.digits` times ten to the power `point`. The
two zeros are identified, and `NaN`, the infinities and driver-specific objects
such as dates are not part of the embedding. -/
inductive JValue where
  | undefined
  | null
  | bool (b : Bool)
  | num (n : Int)
  | dec (negative : Bool) (digits : List Char) (point : Int)
  | str (s : String)
  | arr (items : List JValue)
  | obj (props : List (String × JValue))

/-- Own enumerable string-keyed properties of an object, in the order
`OrdinaryOwnPropertyKeys` lists them. -/
abbrev Props (α : Type) := List (String × α)

/-! ## Strings: UTF-16 code units and their order -/

/-- UTF-16 code units of one code point. -/
def utf16 (c : Char) : List Nat :=
  if c.toNat < 0x10000 then [c.toNat]
  else [0xD800 + (c.toNat - 0x10000) / 0x400, 0xDC00 + (c.toNat - 0x10000) % 0x400]

/-- UTF-16 code units of a string. -/
def codeUnitsOf : List Char → List Nat
  | [] => []
  | c :: cs => utf16 c ++ codeUnitsOf cs

/-- UTF-16 code units of a string. -/
def codeUnits (s : String) : List Nat := codeUnitsOf s.data

/-- Lexicographic "less than or equal" on code-unit sequences. -/
def unitsLe : List Nat → List Nat → Bool
  | [], _ => true
  | _ :: _, [] => false
  | a :: as, b :: bs => if a < b then true else if a = b then unitsLe as bs else false

/-- The order `Array.prototype.sort()` uses without a comparator: strings are
compared by their UTF-16 code units. -/
def JsLe (a b : String) : Prop := unitsLe (codeUnits a) (codeUnits b) = true

instance : DecidableRel JsLe := fun a b =>
  inferInstanceAs (Decidable (unitsLe (codeUnits a) (codeUnits b) = true))

/-- Model of `Array.prototype.sort()` on an array of strings. -/
def sort (keys : List String) : List String := List.insertionSort JsLe keys

/-! ## Ordinary objects -/

/-- Value of a string of decimal digits. -/
def digitsValue (cs : List Char) : Nat :=
  cs.foldl (fun acc c => acc * 10 + (c.toNat - 48)) 0

/-- The array index a property key denotes, if it is one: a canonical numeric
string for an integer below `2^32 - 1`. Such keys are listed first by
`OrdinaryOwnPropertyKeys`, in ascending numeric order. -/
def arrayIndex? (k : String) : Option Nat :=
  match k.data with
  | [] => none
  | c :: cs =>
    if (c :: cs).all Char.isDigit && (c != '0' || cs.isEmpty)
        && decide (digitsValue (c :: cs) < 4294967295) then
      some (digitsValue (c :: cs))
    else none

/-- Places a new array-index property among the array-index properties. -/
def insertIndexed {α : Type} (i : Nat) (k : String) (v : α) : Props α → Props α
  | [] => [(k, v)]
  | p :: rest =>
    match arrayIndex? p.1 with
    | some j => if j < i then p :: insertIndexed i k v rest else (k, v) :: p :: rest
    | none => (k, v) :: p :: rest

/-- Creates or overwrites an own data property (`CreateDataProperty`): an
existing key keeps its position, a new array index goes among the indices, any
other new key goes last. -/
def defineOwn {α : Type} (o : Props α) (k : String) (v : α) : Props α :=
  if o.any (fun p => p.1 == k) then o.map (fun p => if p.1 = k then (k, v) else p)
  else
    match arrayIndex? k with
    | some i => insertIndexed i k v o
    | none => o ++ [(k, v)]

/-- The assignment `obj[key] = value` on an object created by `\x7b\x7d`. Its
prototype is `Object.prototype`, whose `__proto__` accessor intercepts that key:
the setter never creates an own property. Every other key becomes an own data
property. -/
def assign {α : Type} (o : Props α) (k : String) (v : α) : Props α :=
  if k = "__proto__" then o else defineOwn o k v

/-- `Object.keys(o)`. -/
def Object.keys {α : Type} (o : Props α) : List String := o.map Prod.fst

/-- The property read `o[k]` of an own property; `none` is `undefined`. -/
def getOwn {α : Type} : Props α → String → Option α
  | [], _ => none
  | (k, v) :: rest, key => if k = key then some v else getOwn rest key

/-! ## JSON.stringify -/

/-- One hexadecimal digit, lower case. -/
def hexDigit (n : Nat) : Char :=
  if n < 10 then Char.ofNat (48 + n) else Char.ofNat (87 + n)

/-- The escape `QuoteJSONString` emits for one code point. -/
def quoteChar (c : Char) : List Char :=
  if c = '"' then ['\\', '"']
  else if c = '\\' then ['\\', '\\']
  else if c.toNat = 8 then ['\\', 'b']
  else if c.toNat = 9 then ['\\', 't']
  else if c.toNat = 10 then ['\\', 'n']
  else if c.toNat = 12 then ['\\', 'f']
  else if c.toNat = 13 then ['\\', 'r']
  else if c.toNat < 32 then ['\\', 'u', '0', '0', hexDigit (c.toNat / 16), hexDigit (c.toNat % 16)]
  else [c]

/-- Escaped body of a JSON string. -/
def quoteBody : List Char → List Char
  | [] => []
  | c :: cs => quoteChar c ++ quoteBody cs

/-- `QuoteJSONString`. -/
def quote (s : String) : List Char := '"' :: quoteBody s.data ++ ['"']

/-- Decimal digits of a natural number, most significant first. -/
def natDigits : Nat → Nat → List Char
  | 0, n => [Char.ofNat (48 + n % 10)]
  | fuel + 1, n =>
    if n < 10 then [Char.ofNat (48 + n)]
    else natDigits fuel (n / 10) ++ [Char.ofNat (48 + n % 10)]

/-- `Number::toString` on a safe integer: all its digits. -/
def intText : Int → List Char
  | Int.ofNat n => natDigits n n
  | Int.negSucc n => '-' :: natDigits (n + 1) (n + 1)

/-- A run of zeros. -/
def zeros (n : Nat) : List Char := List.replicate n '0'

/-- Text of the exponent part: the letter, a sign, the digits. -/
def exponentText (e : Int) : List Char :=
  'e' :: (if e < 0 then '-' else '+') :: natDigits e.natAbs e.natAbs

/-- `Number::toString` on a number given by its significant digits `s` and the
position `n` of the decimal point (the value is `0.s` times ten to the `n`). -/
def decText (digits : List Char) (point : Int) : List Char :=
  if (digits.length : Int) ≤ point ∧ point ≤ 21 then
    digits ++ zeros (point.toNat - digits.length)
  else if 0 < point ∧ point ≤ 21 then
    digits.take point.toNat ++ '.' :: digits.drop point.toNat
  else if -6 < point ∧ point ≤ 0 then
    '0' :: '.' :: (zeros (-point).toNat ++ digits)
  else
    match digits with
    | [] => []
    | [d] => d :: exponentText (point - 1)
    | d :: rest => d :: '.' :: (rest ++ exponentText (point - 1))

/-- Text of a number that is not a safe integer. -/
def decimalText (negative : Bool) (digits : List Char) (point : Int) : List Char :=
  (if negative then ['-'] else []) ++ decText digits point

mutual
/-- `SerializeJSONProperty` for a value that is present. -/
def ser : JValue → List Char
  | .undefined => "null".data
  | .null => "null".data
  | .bool true => "true".data
  | .bool false => "false".data
  | .num n => intText n
  | .dec negative digits point => decimalText negative digits point
  | .str s => quote s
  | .arr items => '[' :: serItems true items ++ [']']
  | .obj props => '\x7b' :: serProps true props ++ ['\x7d']
/-- `SerializeJSONArray`: elements separated by commas. -/
def serItems : Bool → List JValue → List Char
  | _, [] => []
  | first, v :: rest => (if first then [] else [',']) ++ ser v ++ serItems false rest
/-- `SerializeJSONObject`: members separated by commas; a member whose value is
`undefined` is left out. -/
def serProps : Bool → List (String × JValue) → List Char
  | _, [] => []
  | first, (_, .undefined) :: rest => serProps first rest
  | first, (k, v) :: rest =>
    (if first then [] else [',']) ++ quote k ++ ':' :: ser v ++ serProps false rest
end

/-- `JSON.stringify(value)`; `none` is the result `undefined`. -/
def JSON.stringify : JValue → Option String
  | .undefined => none
  | v => some (String.mk (ser v))

/-! ## JSON.parse -/

/-- Skips JSON white space. -/
def skipWs : List Char → List Char
  | [] => []
  | c :: cs => if c = ' ' ∨ c = '\t' ∨ c = '\n' ∨ c = '\r' then skipWs cs else c :: cs

/-- Consumes the given literal text, if the input starts with it. -/
def expect : List Char → List Char → Option (List Char)
  | [], cs => some cs
  | _ :: _, [] => none
  | l :: ls, c :: cs => if l = c then expect ls cs else none

/-- Value of one hexadecimal digit. -/
def hexValue (c : Char) : Option Nat :=
  if 48 ≤ c.toNat ∧ c.toNat ≤ 57 then some (c.toNat - 48)
  else if 97 ≤ c.toNat ∧ c.toNat ≤ 102 then some (c.toNat - 87)
  else if 65 ≤ c.toNat ∧ c.toNat ≤ 70 then some (c.toNat - 55)
  else none

/-- The code point of a `\uXXXX` escape. Escapes that denote surrogate code
units are outside the embedding and are rejected. -/
def unicodeEscape (a b c d : Char) : Option Char :=
  match hexValue a, hexValue b, hexValue c, hexValue d with
  | some x, some y, some z, some w =>
    let n := ((x * 16 + y) * 16 + z) * 16 + w
    if n < 0xD800 ∨ 0xDFFF < n then some (Char.ofNat n) else none
  | _, _, _, _ => none

/-- The character a single-letter escape denotes. -/
def simpleEscape (e : Char) : Option Char :=
  if e = '"' then some '"'
  else if e = '\\' then some '\\'
  else if e = '/' then some '/'
  else if e = 'b' then some (Char.ofNat 8)
  else if e = 'f' then some (Char.ofNat 12)
  else if e = 'n' then some (Char.ofNat 10)
  else if e = 'r' then some (Char.ofNat 13)
  else if e = 't' then some (Char.ofNat 9)
  else none

/-- Reads a JSON string after its opening quote, up to and including the
closing quote. -/
def parseStringBody : List Char → Option (List Char × List Char)
  | [] => none
  | c :: cs =>
    if c = '"' then some ([], cs)
    else if c = '\\' then
      match cs with
      | [] => none
      | e :: rest =>
        if e = 'u' then
          match rest with
          | a :: b :: c₃ :: d :: rest₂ =>
            match unicodeEscape a b c₃ d, parseStringBody rest₂ with
            | some ch, some (s, r) => some (ch :: s, r)
            | _, _ => none
          | _ => none
        else
          match simpleEscape e, parseStringBody rest with
          | some ch, some (s, r) => some (ch :: s, r)
          | _, _ => none
    else if c.toNat < 32 then none
    else
      match parseStringBody cs with
      | some (s, r) => some (c :: s, r)
      | none => none

/-- Longest run of decimal digits at the start of the input. -/
def takeDigits : List Char → List Char × List Char
  | [] => ([], [])
  | c :: cs =>
    if c.isDigit then ((takeDigits cs).1.cons c, (takeDigits cs).2) else ([], c :: cs)

/-- Removes leading zeros. -/
def dropZeros : List Char → List Char
  | [] => []
  | c :: cs => if c = '0' then dropZeros cs else c :: cs

/-- Removes trailing zeros. -/
def dropTrailingZeros : List Char → List Char
  | [] => []
  | c :: cs => if dropTrailingZeros cs = [] ∧ c = '0' then [] else c :: dropTrailingZeros cs

/-- Whether the number with significant digits `s` and decimal point at `n` is
an integer within the safe range. -/
def isSafeInteger (s : List Char) (n : Int) : Bool :=
  decide ((s.length : Int) ≤ n)
    && decide (digitsValue s * 10 ^ (n.toNat - s.length) ≤ 9007199254740991)

/-- The number denoted by a sign, a digit string and a power of ten: a safe
integer becomes `num`, any other number `dec` with its significant digits. The
two zeros are identified. -/
def mkNumber (negative : Bool) (digits : List Char) (e : Int) : JValue :=
  let significant := dropZeros digits
  let s := dropTrailingZeros significant
  let n : Int := significant.length + e
  if s = [] then .num 0
  else if isSafeInteger s n then
    .num (if negative then -((digitsValue s * 10 ^ (n.toNat - s.length) : Nat) : Int)
          else ((digitsValue s * 10 ^ (n.toNat - s.length) : Nat) : Int))
  else .dec negative s n

/-- Reads the optional fraction of a number. -/
def parseFraction : List Char → Option (List Char × List Char)
  | [] => some ([], [])
  | c :: cs =>
    if c = '.' then
      (if (takeDigits cs).1 = [] then none else some (takeDigits cs))
    else some ([], c :: cs)

/-- Reads the optional exponent of a number. -/
def parseExponent : List Char → Option (Int × List Char)
  | [] => some (0, [])
  | c :: cs =>
    if c = 'e' ∨ c = 'E' then
      let negative := cs.head? = some '-'
      let body := if negative ∨ cs.head? = some '+' then cs.tail else cs
      if (takeDigits body).1 = [] then none
      else some (if negative then -(digitsValue (takeDigits body).1 : Int)
                 else (digitsValue (takeDigits body).1 : Int), (takeDigits body).2)
    else some (0, c :: cs)

/-- Reads the digits of a number after its sign: all digits read, and the power
of ten that scales them. -/
def parseUnsigned (body : List Char) : Option (List Char × Int × List Char) :=
  let intDigits := (takeDigits body).1
  if intDigits = [] then none
  else if intDigits.head? = some '0' ∧ intDigits.length > 1 then none
  else
    match parseFraction (takeDigits body).2 with
    | none => none
    | some (fraction, rest) =>
      match parseExponent rest with
      | none => none
      | some (e, rest₂) => some (intDigits ++ fraction, e - fraction.length, rest₂)

/-- Reads a JSON number: sign, integer digits, optional fraction, optional
exponent. -/
def parseNumber (cs : List Char) : Option (JValue × List Char) :=
  let negative := decide (cs.head? = some '-')
  match parseUnsigned (if negative then cs.tail else cs) with
  | some (digits, e, rest) => some (mkNumber negative digits e, rest)
  | none => none

mutual
/-- Reads one JSON value; the first argument bounds the nesting and length. -/
def parseValue : Nat → List Char → Option (JValue × List Char)
  | 0, _ => none
  | fuel + 1, cs =>
    match skipWs cs with
    | [] => none
    | c :: rest =>
      if c = '"' then
        match parseStringBody rest with
        | some (s, r) => some (.str (String.mk s), r)
        | none => none
      else if c = '[' then
        match skipWs rest with
        | [] => none
        | d :: rest₂ =>
          if d = ']' then some (.arr [], rest₂)
          else
            match parseItems fuel (d :: rest₂) with
            | some (items, r) => some (.arr items, r)
            | none => none
      else if c = '\x7b' then
        match skipWs rest with
        | [] => none
        | d :: rest₂ =>
          if d = '\x7d' then some (.obj [], rest₂)
          else
            match parseMembers fuel (d :: rest₂) with
            | some (members, r) =>
              some (.obj (members.foldl (fun o m => defineOwn o m.1 m.2) []), r)
            | none => none
      else if c = 'n' then
        match expect ['u', 'l', 'l'] rest with
        | some r => some (.null, r)
        | none => none
      else if c = 't' then
        match expect ['r', 'u', 'e'] rest with
        | some r => some (.bool true, r)
        | none => none
      else if c = 'f' then
        match expect ['a', 'l', 's', 'e'] rest with
        | some r => some (.bool false, r)
        | none => none
      else
        parseNumber (c :: rest)
/-- Reads the elements of a non-empty array and its closing bracket. -/
def parseItems : Nat → List Char → Option (List JValue × List Char)
  | 0, _ => none
  | fuel + 1, cs =>
    match parseValue fuel cs with
    | none => none
    | some (v, rest) =>
      match skipWs rest with
      | [] => none
      | c :: rest₂ =>
        if c = ',' then
          match parseItems fuel rest₂ with
          | some (vs, r) => some (v :: vs, r)
          | none => none
        else if c = ']' then some ([v], rest₂)
        else none
/-- Reads the members of a non-empty object and its closing brace, in text
order. -/
def parseMembers : Nat → List Char → Option (List (String × JValue) × List Char)
  | 0, _ => none
  | fuel + 1, cs =>
    match skipWs cs with
    | [] => none
    | q :: rest =>
      if q = '"' then
        match parseStringBody rest with
        | none => none
        | some (k, rest₁) =>
          match skipWs rest₁ with
          | [] => none
          | colon :: rest₂ =>
            if colon = ':' then
              match parseValue fuel rest₂ with
              | none => none
              | some (v, rest₃) =>
                match skipWs rest₃ with
                | [] => none
                | c :: rest₄ =>
                  if c = ',' then
                    match parseMembers fuel rest₄ with
                    | some (ms, r) => some ((String.mk k, v) :: ms, r)
                    | none => none
                  else if c = '\x7d' then some ([(String.mk k, v)], rest₄)
                  else none
            else none
      else none
end

/-- `JSON.parse(text)`; `none` is a thrown `SyntaxError`. Objects are built
member by member with `CreateDataProperty`. -/
def JSON.parse (text : String) : Option JValue :=
  match parseValue (text.data.length + 1) text.data with
  | some (v, rest) => if skipWs rest = [] then some v else none
  | none => none

/-! ## Values that survive a JSON round trip -/

/-- Whether a list of keys is in the order `OrdinaryOwnPropertyKeys` gives the
keys of an object: no key twice, array indices first in ascending order, then
the other keys. -/
def ownKeyOrder : List String → Bool
  | [] => true
  | k :: rest =>
    !rest.contains k
      && (match arrayIndex? k with
          | some i => rest.all (fun k₂ =>
              match arrayIndex? k₂ with
              | some j => decide (i < j)
              | none => true)
          | none => rest.all (fun k₂ => (arrayIndex? k₂).isNone))
      && ownKeyOrder rest

/-- The digit strings `dec` may carry: not empty, digits only, no zero in
front and no zero at the end. -/
def canonicalDigits (s : List Char) : Bool :=
  !s.isEmpty && s.all Char.isDigit && decide (dropZeros s = s)
    && decide (dropTrailingZeros s = s)

mutual
/-- Whether a value is a well-formed JSON value of the embedding: no
`undefined` anywhere, every number in its one representation (`num` for the
safe integers, `dec` with canonical digits for all other numbers), and every
object a property list in own-key order. -/
def jsonSafe : JValue → Bool
  | .undefined => false
  | .null => true
  | .bool _ => true
  | .num n => decide (n.natAbs ≤ 9007199254740991)
  | .dec _ digits point => canonicalDigits digits && !isSafeInteger digits point
  | .str _ => true
  | .arr items => jsonSafeItems items
  | .obj props => ownKeyOrder (props.map Prod.fst) && jsonSafeProps props
/-- Every element of the list is `jsonSafe`. -/
def jsonSafeItems : List JValue → Bool
  | [] => true
  | v :: rest => jsonSafe v && jsonSafeItems rest
/-- Every property value of the list is `jsonSafe`. -/
def jsonSafeProps : List (String × JValue) → Bool
  | [] => true
  | (_, v) :: rest => jsonSafe v && jsonSafeProps rest
end

/-- What may follow a value inside a JSON text: nothing, or one of the
structural characters `,`, `]` and the closing brace. -/
def Delimited (rest : List Char) : Prop :=
  rest = [] ∨ ∃ c tail, rest = c :: tail ∧ (c = ',' ∨ c = ']' ∨ c = '\x7d')

/-- What may follow the digits of a number. -/
def NumberEnd (rest : List Char) : Prop :=
  ∀ c, rest.head? = some c → c.isDigit = false ∧ c ≠ '.' ∧ c ≠ 'e' ∧ c ≠ 'E'

/-- A character that can start a value and is neither white space nor a
closing bracket. -/
def Opening (c : Char) : Prop :=
  c ≠ ' ' ∧ c ≠ '\t' ∧ c ≠ '\n' ∧ c ≠ '\r' ∧ c ≠ ']' ∧ c ≠ '\x7d'

/-- The three statements proved together by induction on the fuel. -/
def RoundTripAt (fuel : Nat) : Prop :=
  (∀ v rest, jsonSafe v = true → (ser v).length ≤ fuel → Delimited rest →
      parseValue fuel (ser v ++ rest) = some (v, rest))
    ∧ (∀ v vs rest, jsonSafe v = true → jsonSafeItems vs = true →
        (ser v ++ serItems false vs).length + 1 ≤ fuel →
        parseItems fuel (ser v ++ serItems false vs ++ ']' :: rest) = some (v :: vs, rest))
    ∧ (∀ k v ms rest, jsonSafe v = true → jsonSafeProps ms = true →
        (quote k ++ ':' :: ser v ++ serProps false ms).length + 1 ≤ fuel →
        parseMembers fuel (quote k ++ ':' :: ser v ++ serProps false ms ++ '\x7d' :: rest)
          = some ((k, v) :: ms, rest))

/-! ## The cache key canonicaliser (products.js, lines 17-23) -/

/-- The object `sortedQuery` built by the `reduce` call. -/
def sortedQuery (query : Props String) : Props JValue :=
  (sort (Object.keys query)).foldl
    (fun obj key =>
      assign obj key (match getOwn query key with
        | some s => JValue.str s
        | none => JValue.undefined))
    []

/-- The helper `generateCacheKey`; the template literal renders `undefined` as
the text `undefined`. -/
def generateCacheKey (pfx : String) (query : Props String) : String :=
  pfx ++ ":" ++ (JSON.stringify (.obj (sortedQuery query))).getD "undefined"

/-! ## Sort resolution (products.js, lines 100-109) -/

/-- Names of the properties every ordinary object inherits from
`Object.prototype`. -/
def objectPrototypeKeys : List String :=
  ["constructor", "__defineGetter__", "__defineSetter__", "hasOwnProperty",
   "__lookupGetter__", "__lookupSetter__", "isPrototypeOf", "propertyIsEnumerable",
   "toString", "valueOf", "__proto__", "toLocaleString"]

/-- Result of reading a property of an object literal whose own properties
are strings: `undefined`, an own string, or a member inherited from
`Object.prototype` (a built-in function object, or the prototype object itself
for `__proto__`). -/
inductive PropRead where
  | undefined
  | str (s : String)
  | inherited (name : String)
deriving DecidableEq

/-- The property read `o[k]` on an object literal: own properties first, then
the prototype chain. -/
def readProp (o : Props String) (k : String) : PropRead :=
  match getOwn o k with
  | some s => .str s
  | none => if k ∈ objectPrototypeKeys then .inherited k else .undefined

/-- JavaScript truthiness of a property read. -/
def PropRead.truthy : PropRead → Bool
  | .undefined => false
  | .str s => s != ""
  | .inherited _ => true

/-- The expression `a || b` with a string literal on the right. -/
def PropRead.orElse (a : PropRead) (b : String) : PropRead :=
  if a.truthy then a else .str b

/-- Text a template literal renders for the value. -/
def PropRead.text : PropRead → String
  | .undefined => "undefined"
  | .str s => s
  | .inherited name =>
    if name = "__proto__" then "[object Object]"
    else if name = "constructor" then "function Object() \x7b [native code] \x7d"
    else "function " ++ name ++ "() \x7b [native code] \x7d"

/-- The object literal `validSortColumns`. -/
def validSortColumns : Props String :=
  [("kode_brg", "b.kode_brg"), ("nama_brg", "b.nama_brg"),
   ("harga_brg", "b.hrg_konsumen"), ("merk_brg", "k.kelompok")]

/-- The value `sortColumn` of line 108. -/
def sortColumn (sortBy : String) : PropRead :=
  (readProp validSortColumns sortBy).orElse "b.kode_brg"

/-- The physical column expressions the whitelist allows. -/
def whitelist : List PropRead :=
  [.str "b.kode_brg", .str "b.nama_brg", .str "b.hrg_konsumen", .str "k.kelompok"]

/-- The logical sort names, which are also the `enum` of `sortBy` in the route
schema (line 31). -/
def sortByEnum : List String := ["kode_brg", "nama_brg", "harga_brg", "merk_brg"]

/-- Upper-case form of one code point under `String.prototype.toUpperCase`.
The mapping is given for every code point whose upper-case form contains an
ASCII letter; any other code point is kept, its upper-case form containing no
ASCII character, so comparisons with ASCII text are exact. -/
def upperChar (c : Char) : List Char :=
  match c with
  | 'a' => ['A'] | 'b' => ['B'] | 'c' => ['C'] | 'd' => ['D'] | 'e' => ['E']
  | 'f' => ['F'] | 'g' => ['G'] | 'h' => ['H'] | 'i' => ['I'] | 'j' => ['J']
  | 'k' => ['K'] | 'l' => ['L'] | 'm' => ['M'] | 'n' => ['N'] | 'o' => ['O']
  | 'p' => ['P'] | 'q' => ['Q'] | 'r' => ['R'] | 's' => ['S'] | 't' => ['T']
  | 'u' => ['U'] | 'v' => ['V'] | 'w' => ['W'] | 'x' => ['X'] | 'y' => ['Y']
  | 'z' => ['Z']
  | '\u00df' => ['S', 'S']
  | '\u0131' => ['I']
  | '\u0149' => ['\u02bc', 'N']
  | '\u017f' => ['S']
  | '\u01f0' => ['J', '\u030c']
  | '\u1e96' => ['H', '\u0331']
  | '\u1e97' => ['T', '\u0308']
  | '\u1e98' => ['W', '\u030a']
  | '\u1e99' => ['Y', '\u030a']
  | '\u1e9a' => ['A', '\u02be']
  | '\ufb00' => ['F', 'F']
  | '\ufb01' => ['F', 'I']
  | '\ufb02' => ['F', 'L']
  | '\ufb03' => ['F', 'F', 'I']
  | '\ufb04' => ['F', 'F', 'L']
  | '\ufb05' => ['S', 'T']
  | '\ufb06' => ['S', 'T']
  | _ => [c]

/-- Upper-case form of a sequence of code points. -/
def upperChars : List Char → List Char
  | [] => []
  | c :: cs => upperChar c ++ upperChars cs

/-- `String.prototype.toUpperCase`. -/
def toUpperCase (s : String) : String := String.mk (upperChars s.data)

/-- The value `sortDirection` of line 109. -/
def sortDirection (sortDir : String) : String :=
  if toUpperCase sortDir = "DESC" then "DESC" else "ASC"

/-- The sixteen letter-case variants of `desc`. -/
def descCaseVariants : List String :=
  ["desc", "desC", "deSc", "deSC", "dEsc", "dEsC", "dESc", "dESC",
   "Desc", "DesC", "DeSc", "DeSC", "DEsc", "DEsC", "DESc", "DESC"]

/-- The eight further spellings whose third letter is the long s (U+017F). -/
def descLongSVariants : List String :=
  ["de\u017fc", "de\u017fC", "dE\u017fc", "dE\u017fC",
   "De\u017fc", "De\u017fC", "DE\u017fc", "DE\u017fC"]

/-! ## Filter builder (products.js, lines 56-98) -/

/-- A destructuring default `name = ''`: it applies when the property is
`undefined`. -/
def orEmpty (v : Option String) : String := v.getD ""

/-- JavaScript truthiness of a string. -/
def truthy (s : String) : Bool := s != ""

/-- State of the builder: the array `whereConditions` and the object
`queryParams`. -/
structure FilterState where
  whereConditions : List String
  queryParams : Props String
deriving DecidableEq

/-- One `if (value) \x7b push; bind \x7d` block. -/
def addFilter (st : FilterState) (value predicate key bound : String) : FilterState :=
  if truthy value then
    { whereConditions := st.whereConditions ++ [predicate],
      queryParams := assign st.queryParams key bound }
  else st

/-- Lines 67-94: the five filter blocks in source order. -/
def buildFilters (search divisi merk seri warna : String) : FilterState :=
  let st : FilterState := { whereConditions := [], queryParams := [] }
  let st := addFilter st search "(b.kode_brg LIKE @search OR b.nama_brg LIKE @search)"
    "search" ("%" ++ search ++ "%")
  let st := addFilter st divisi "d.kode = @divisi" "divisi" divisi
  let st := addFilter st merk "k.kode = @merk" "merk" merk
  let st := addFilter st seri "kt.kode = @seri" "seri" seri
  addFilter st warna "c.kode = @warna" "warna" warna

/-- `Array.prototype.join`. -/
def join (sep : String) : List String → String
  | [] => ""
  | [x] => x
  | x :: y :: rest => x ++ sep ++ join sep (y :: rest)

/-- Lines 96-98: the text `whereClause`. -/
def whereClause (whereConditions : List String) : String :=
  if whereConditions.length > 0 then "WHERE " ++ join " AND " whereConditions else ""

/-- The five filters with their predicates, in source order. -/
def filterPredicates : List (String × String) :=
  [("search", "(b.kode_brg LIKE @search OR b.nama_brg LIKE @search)"),
   ("divisi", "d.kode = @divisi"), ("merk", "k.kode = @merk"),
   ("seri", "kt.kode = @seri"), ("warna", "c.kode = @warna")]

/-- Names of the filters whose value is a non-empty string, in source order. -/
def activeFilters (search divisi merk seri warna : Option String) : List String :=
  ([("search", search), ("divisi", divisi), ("merk", merk), ("seri", seri),
    ("warna", warna)].filter (fun p => truthy (orEmpty p.2))).map Prod.fst

/-- Predicate text of a filter name. -/
def predicateOf (name : String) : String := (getOwn filterPredicates name).getD ""

/-- Scanner for the named placeholders `@name` of a SQL text; the second
argument holds the name being read, in reverse. -/
def scanPlaceholders : List Char → Option (List Char) → List String
  | [], none => []
  | [], some acc => [String.mk acc.reverse]
  | c :: cs, none => if c = '@' then scanPlaceholders cs (some []) else scanPlaceholders cs none
  | c :: cs, some acc =>
    if c.isAlphanum || c = '_' then scanPlaceholders cs (some (c :: acc))
    else String.mk acc.reverse ::
      (if c = '@' then scanPlaceholders cs (some []) else scanPlaceholders cs none)

/-- Named placeholders occurring in a SQL text, in order of occurrence. -/
def placeholders (sqlText : String) : List String := scanPlaceholders sqlText.data none

/-- The conditions pushed when the five values have the given truthiness. -/
def conditionsOf (f₁ f₂ f₃ f₄ f₅ : Bool) : List String :=
  (if f₁ then ["(b.kode_brg LIKE @search OR b.nama_brg LIKE @search)"] else [])
    ++ (if f₂ then ["d.kode = @divisi"] else []) ++ (if f₃ then ["k.kode = @merk"] else [])
    ++ (if f₄ then ["kt.kode = @seri"] else []) ++ (if f₅ then ["c.kode = @warna"] else [])

/-- The filter names selected by five truthiness flags. -/
def namesOf (f₁ f₂ f₃ f₄ f₅ : Bool) : List String :=
  (if f₁ then ["search"] else []) ++ (if f₂ then ["divisi"] else [])
    ++ (if f₃ then ["merk"] else []) ++ (if f₄ then ["seri"] else [])
    ++ (if f₅ then ["warna"] else [])

/-- The cache key of the single-entity read (line 190). -/
def productCacheKey (id : String) : String := "product:" ++ id

/-! ## Collaborators: cache client, store, configuration -/

/-- What the cache holds under a key: the text and the expiry argument that
followed `EX` in the `set` call. -/
structure CacheEntry where
  value : String
  expiry : JValue

/-- The cache client `fastify.redis`. An error field that is set makes every
call of that kind reject with the given message. -/
structure RedisClient where
  entries : String → Option CacheEntry
  getError : Option String
  setError : Option String

/-- The call `fastify.redis.get(key)`: the text, `null` (here `none`), or a
rejection. -/
def RedisClient.get (client : RedisClient) (key : String) : Except String (Option String) :=
  match client.getError with
  | some err => .error err
  | none => .ok ((client.entries key).map CacheEntry.value)

/-- The call `fastify.redis.set(key, value, 'EX', expiry)`. -/
def RedisClient.set (client : RedisClient) (key value : String) (expiry : JValue) :
    Except String RedisClient :=
  match client.setError with
  | some err => .error err
  | none =>
    .ok { client with
          entries := fun k => if k = key then some { value := value, expiry := expiry }
                              else client.entries k }

/-- Everything outside the handlers that a request depends on. -/
structure Env where
  /-- The decorator `fastify.redis`: `null` until a client is installed. -/
  redis : Option RedisClient
  /-- The database driver behind `executeQuery`: the record set of a query
  with its named parameters, or the error it throws. -/
  store : String → Props String → Except String (List (Props JValue))
  /-- Whether `process.env.NODE_ENV === 'development'`. -/
  development : Bool
  /-- The variable `process.env.REDIS_PRODUCTS_TTL`. -/
  envProductsTTL : Option String
  /-- The variable `process.env.REDIS_PRODUCT_DETAIL_TTL`. -/
  envProductDetailTTL : Option String
  /-- The message of the `SyntaxError` the engine throws for an unparsable
  text. -/
  syntaxErrorMessage : String → String

/-- The expression `process.env.NAME || fallback`. -/
def envOr (value : Option String) (fallback : Int) : JValue :=
  match value with
  | some s => if truthy s then .str s else .num fallback
  | none => .num fallback

/-- The object `config.redis.cacheTTL` (config/index.js, lines 42-45). -/
def cacheTTL (env : Env) : Props JValue :=
  [("products", envOr env.envProductsTTL 300),
   ("productDetail", envOr env.envProductDetailTTL 600)]

/-- The property read `o.name` for a name that `Object.prototype` does not
define: the own property, or `undefined`. -/
def member (o : Props JValue) (name : String) : JValue := (getOwn o name).getD .undefined

/-- The function `executeQuery` (database/index.js, lines 46-63): it runs the
query with its parameters and rethrows any error. -/
def executeQuery (env : Env) (sqlText : String) (params : Props String) :
    Except String (List (Props JValue)) :=
  env.store sqlText params

/-! ## The handlers -/

/-- Observable steps of a handler, in order. Log lines are not recorded. -/
inductive Effect where
  | cacheGet (key : String)
  | query (sqlText : String) (params : Props String)
  | send (status : Nat) (body : JValue)
  | cacheSet (key value : String) (expiry : JValue)

/-- What a request leaves behind: its steps and the cache client afterwards. -/
structure Outcome where
  trace : List Effect
  redis : Option RedisClient

/-- Status codes of the `reply.send` calls, in order. -/
def Outcome.statuses (out : Outcome) : List Nat :=
  out.trace.filterMap (fun e => match e with
    | .send status _ => some status
    | _ => none)

/-- Number of store queries the request ran. -/
def Outcome.queryCount (out : Outcome) : Nat :=
  (out.trace.filter (fun e => match e with
    | .query _ _ => true
    | _ => false)).length

/-- Number of `set` calls the request issued on the cache. -/
def Outcome.setCount (out : Outcome) : Nat :=
  (out.trace.filter (fun e => match e with
    | .cacheSet _ _ _ => true
    | _ => false)).length

/-- The first `reply.send` of the request, which is the one that reaches the
client. -/
def Outcome.firstSend (out : Outcome) : Option (Nat × JValue) :=
  (out.trace.filterMap (fun e => match e with
    | .send status body => some (status, body)
    | _ => none)).head?

/-- Body of the 500 reply built in a `catch` block. -/
def errorBody (message : String) (development : Bool) (errMessage : String) : JValue :=
  .obj [("error", .str "Database Error"), ("message", .str message),
        ("detail", if development then .str errMessage else .undefined)]

/-- The `catch` block of a handler: one more reply, with status 500. -/
def catchBlock (env : Env) (message : String) (trace : List Effect)
    (redis : Option RedisClient) (err : String) : Outcome :=
  { trace := trace ++ [.send 500 (errorBody message env.development err)], redis := redis }

/-- Result of the cache lookup that opens both handlers. -/
inductive Lookup where
  | threw (err : String)
  | hit (body : JValue)
  | miss

/-- The lookup block (lines 47-54 and 193-200): skipped without a client; a
rejected `get` or an unparsable text throws; a non-empty text is a hit. -/
def cacheLookup (env : Env) (cacheKey : String) : List Effect × Lookup :=
  match env.redis with
  | none => ([], .miss)
  | some client =>
    match client.get cacheKey with
    | .error err => ([.cacheGet cacheKey], .threw err)
    | .ok none => ([.cacheGet cacheKey], .miss)
    | .ok (some cachedData) =>
      if truthy cachedData then
        match JSON.parse cachedData with
        | some body => ([.cacheGet cacheKey], .hit body)
        | none => ([.cacheGet cacheKey], .threw (env.syntaxErrorMessage cachedData))
      else ([.cacheGet cacheKey], .miss)

/-- The population block (lines 172-175 and 243-246), run after the reply was
sent: skipped without a client; a rejected `set` is thrown. -/
def populate (env : Env) (trace : List Effect) (cacheKey : String) (value : JValue)
    (expiry : JValue) : Except (List Effect × String) Outcome :=
  match env.redis with
  | none => .ok { trace := trace, redis := none }
  | some client =>
    let text := (JSON.stringify value).getD "undefined"
    match client.set cacheKey text expiry with
    | .error err => .error (trace ++ [.cacheSet cacheKey text expiry], err)
    | .ok client₂ =>
      .ok { trace := trace ++ [.cacheSet cacheKey text expiry], redis := some client₂ }

/-- The template literal `countQuery` (lines 112-120). -/
def countQuery (whereClause : String) : String :=
  "\n        SELECT COUNT(*) AS total\n        FROM brg b\n        LEFT JOIN divisi d ON d.kode = b.div\n        LEFT JOIN kelompok k ON k.kode = b.dept\n        LEFT JOIN kategori kt ON kt.kode = b.kategori\n        LEFT JOIN clas c ON c.kode = b.clas\n        "
    ++ whereClause ++ "\n      "

/-- The select list and joins shared by `dataQuery` and the single-entity
query (lines 130-150 and 205-225). -/
def selectJoined : String :=
  "\n        SELECT \n          b.kode_brg,\n          b.nama_brg,\n          b.hrg_sup_sbl_ppn,\n          b.hrg2,\n          b.hrg_konsumen as harga_brg,\n          d.kode AS kode_div,\n          d.nm_div AS klp,\n          k.kode AS kode_merk,\n          k.kelompok AS merk_brg,\n          kt.kode AS kode_seri,\n          kt.nama_kat AS seri_brg,\n          c.kode AS kode_warna,\n          c.nm_class AS warna_brg,\n          b.jml_barang as jml_brg,\n          b.link_gbr\n        FROM brg b\n        LEFT JOIN divisi d ON d.kode = b.div\n        LEFT JOIN kelompok k ON k.kode = b.dept\n        LEFT JOIN kategori kt ON kt.kode = b.kategori\n        LEFT JOIN clas c ON c.kode = b.clas\n        "

/-- The template literal `dataQuery` (lines 129-153). -/
def dataQuery (whereClause sortColumn sortDirection : String) : String :=
  selectJoined ++ whereClause ++ "\n        ORDER BY " ++ sortColumn ++ " " ++ sortDirection
    ++ "\n      "

/-- The template literal `query` of the single-entity read (lines 204-227). -/
def productQuery : String := selectJoined ++ "WHERE b.kode_brg = @id\n      "

/-- The object `response` of lines 159-166. -/
def pagedResponse (rows : List (Props JValue)) (total : JValue) : JValue :=
  .obj [("data", .arr (rows.map JValue.obj)),
        ("metadata", .obj [("total", total), ("allRecords", .bool true)])]

/-- The two SQL texts and the parameter object a miss works with. -/
structure QueryPlan where
  countText : String
  dataText : String
  params : Props String

/-- Lines 56-153: destructuring with defaults, the filter builder, the sort
resolution and the two template literals. -/
def queryPlan (query : Props String) : QueryPlan :=
  let sortBy := (getOwn query "sortBy").getD "kode_brg"
  let sortDir := (getOwn query "sortDir").getD "asc"
  let search := orEmpty (getOwn query "search")
  let divisi := orEmpty (getOwn query "divisi")
  let merk := orEmpty (getOwn query "merk")
  let seri := orEmpty (getOwn query "seri")
  let warna := orEmpty (getOwn query "warna")
  let built := buildFilters search divisi merk seri warna
  let clause := whereClause built.whereConditions
  { countText := countQuery clause,
    dataText := dataQuery clause (sortColumn sortBy).text (sortDirection sortDir),
    params := built.queryParams }

/-- The handler of `GET /products` (lines 42-185). -/
def productsHandler (env : Env) (query : Props String) : Outcome :=
  let cacheKey := generateCacheKey "products" query
  let onError := catchBlock env "Error retrieving products"
  match cacheLookup env cacheKey with
  | (trace, .threw err) => onError trace env.redis err
  | (trace, .hit body) => { trace := trace ++ [.send 200 body], redis := env.redis }
  | (trace, .miss) =>
    let plan := queryPlan query
    match executeQuery env plan.countText plan.params with
    | .error err => onError (trace ++ [.query plan.countText plan.params]) env.redis err
    | .ok [] =>
      onError (trace ++ [.query plan.countText plan.params]) env.redis
        "Cannot read properties of undefined (reading 'total')"
    | .ok (countRow :: _) =>
      let total := member countRow "total"
      let trace := trace ++ [.query plan.countText plan.params,
        .query plan.dataText plan.params]
      match executeQuery env plan.dataText plan.params with
      | .error err => onError trace env.redis err
      | .ok rows =>
        let response := pagedResponse rows total
        let trace := trace ++ [.send 200 response]
        match populate env trace cacheKey response (member (cacheTTL env) "products") with
        | .ok out => out
        | .error (trace, err) => onError trace env.redis err

/-- The handler of `GET /products/:id` (lines 188-256). -/
def productHandler (env : Env) (id : String) : Outcome :=
  let cacheKey := productCacheKey id
  let onError := catchBlock env "Error retrieving product details"
  match cacheLookup env cacheKey with
  | (trace, .threw err) => onError trace env.redis err
  | (trace, .hit body) => { trace := trace ++ [.send 200 body], redis := env.redis }
  | (trace, .miss) =>
    let trace := trace ++ [.query productQuery [("id", id)]]
    match executeQuery env productQuery [("id", id)] with
    | .error err => onError trace env.redis err
    | .ok [] =>
      { trace := trace ++ [.send 404 (.obj [("error", .str "Not Found"),
          ("message", .str ("Product with ID " ++ id ++ " not found"))])],
        redis := env.redis }
    | .ok (product :: _) =>
      let trace := trace ++ [.send 200 (.obj product)]
      match populate env trace cacheKey (.obj product) (member (cacheTTL env) "product") with
      | .ok out => out
      | .error (trace, err) => onError trace env.redis err

/-! ## Sample environments -/

/-- A cache client that holds nothing and never fails. -/
def emptyClient : RedisClient := { entries := fun _ => none, getError := none, setError := none }

/-- A cache client whose `get` calls are rejected. -/
def getFailingClient : RedisClient :=
  { entries := fun _ => none, getError := some "ECONNREFUSED", setError := none }

/-- A cache client whose `set` calls are rejected. -/
def setFailingClient : RedisClient :=
  { entries := fun _ => none, getError := none, setError := some "ECONNREFUSED" }

/-- A store with the single product `A1`. -/
def sampleStore (sqlText : String) (params : Props String) :
    Except String (List (Props JValue)) :=
  if sqlText = productQuery then
    (if getOwn params "id" = some "A1" then .ok [[("kode_brg", .str "A1"), ("jml_brg", .num 4)]]
     else .ok [])
  else if sqlText = countQuery "WHERE d.kode = @divisi" then .ok [[("total", .num 1)]]
  else .ok [[("kode_brg", .str "A1"), ("jml_brg", .num 4)]]

/-- A sample environment around a given cache client; no TTL variable is set. -/
def sampleEnv (client : RedisClient) : Env :=
  { redis := some client, store := sampleStore, development := false,
    envProductsTTL := none, envProductDetailTTL := none,
    syntaxErrorMessage := fun _ => "Unexpected token in JSON" }

/-- A sample query: one categorical filter. -/
def sampleQuery : Props String := [("divisi", "A")]

/-- The rows `sampleStore` returns for the data query. -/
def sampleRows : List (Props JValue) := [[("kode_brg", .str "A1"), ("jml_brg", .num 4)]]

/-- Rows with a fractional price, 12500.5, and a quantity. -/
def pricedRows : List (Props JValue) :=
  [[("kode_brg", .str "A1"), ("harga_brg", .dec false ['1', '2', '5', '0', '0', '5'] 5),
    ("jml_brg", .num 4)]]

/-- A store that counts two rows and returns `pricedRows` for any other
query. -/
def pricedStore (sqlText : String) (_ : Props String) :
    Except String (List (Props JValue)) :=
  if sqlText = countQuery "WHERE d.kode = @divisi" then .ok [[("total", .num 2)]]
  else .ok pricedRows

/-- The sample environment with `pricedStore` as its store. -/
def pricedEnv (client : RedisClient) : Env := { sampleEnv client with store := pricedStore }

/-- A store that fails on every query. -/
def failingStore (_ : String) (_ : Props String) : Except String (List (Props JValue)) :=
  .error "connection lost"

/-! ## Theorems -/

theorem char_valid_toNat (c : Char) :
    c.toNat < 0xd800 ∨ (0xdfff < c.toNat ∧ c.toNat < 0x110000) := by
  have h := c.valid
  simpa [UInt32.isValidChar, Nat.isValidChar] using h

theorem char_eq_of_toNat_eq {c d : Char} (h : c.toNat = d.toNat) : c = d :=
  Char.ext (UInt32.toNat.inj h)

theorem unitsLe_refl (a : List Nat) : unitsLe a a = true := by
  induction a with
  | nil => rfl
  | cons x xs ih => simp [unitsLe, ih]

theorem unitsLe_total (a b : List Nat) : unitsLe a b = true ∨ unitsLe b a = true := by
  induction a generalizing b with
  | nil => left; rfl
  | cons x xs ih =>
    cases b with
    | nil => right; rfl
    | cons y ys =>
      simp only [unitsLe]
      rcases Nat.lt_trichotomy x y with h | h | h
      · left; simp [h]
      · subst h; simpa using ih ys
      · right; simp [h]

theorem unitsLe_trans {a b c : List Nat} (hab : unitsLe a b = true) (hbc : unitsLe b c = true) :
    unitsLe a c = true := by
  induction a generalizing b c with
  | nil => rfl
  | cons x xs ih =>
    cases b with
    | nil => simp [unitsLe] at hab
    | cons y ys =>
      cases c with
      | nil => simp [unitsLe] at hbc
      | cons z zs =>
        simp only [unitsLe] at hab hbc ⊢
        by_cases hxy : x < y
        · by_cases hyz : y < z
          · simp [Nat.lt_trans hxy hyz]
          · by_cases hyz2 : y = z
            · subst hyz2; simp [hxy]
            · simp [hyz, hyz2] at hbc
        · by_cases hxy2 : x = y
          · subst hxy2
            simp only [hxy, if_false, if_true] at hab
            by_cases hyz : x < z
            · simp [hyz]
            · by_cases hyz2 : x = z
              · subst hyz2
                simp only [hyz, if_false, if_true] at hbc ⊢
                exact ih hab hbc
              · simp [hyz, hyz2] at hbc
          · simp [hxy, hxy2] at hab

theorem unitsLe_antisymm {a b : List Nat} (hab : unitsLe a b = true) (hba : unitsLe b a = true) :
    a = b := by
  induction a generalizing b with
  | nil =>
    cases b with
    | nil => rfl
    | cons y ys => simp [unitsLe] at hba
  | cons x xs ih =>
    cases b with
    | nil => simp [unitsLe] at hab
    | cons y ys =>
      simp only [unitsLe] at hab hba
      by_cases hxy : x < y
      · have h1 : ¬ y < x := by omega
        have h2 : ¬ y = x := by omega
        simp [h1, h2] at hba
      · by_cases hxy2 : x = y
        · subst hxy2
          simp only [hxy, if_false, if_true] at hab hba
          rw [ih hab hba]
        · simp [hxy, hxy2] at hab

theorem codeUnitsOf_injective {s t : List Char} (h : codeUnitsOf s = codeUnitsOf t) : s = t := by
  induction s generalizing t with
  | nil =>
    cases t with
    | nil => rfl
    | cons d ds =>
      simp only [codeUnitsOf, utf16] at h
      split at h <;> simp at h
  | cons c cs ih =>
    cases t with
    | nil =>
      simp only [codeUnitsOf, utf16] at h
      split at h <;> simp at h
    | cons d ds =>
      have hc := char_valid_toNat c
      have hd := char_valid_toNat d
      simp only [codeUnitsOf, utf16] at h
      split at h <;> split at h
      · simp only [List.singleton_append, List.cons.injEq] at h
        rw [char_eq_of_toNat_eq h.1, ih h.2]
      · simp only [List.singleton_append, List.cons_append, List.cons.injEq] at h
        omega
      · simp only [List.singleton_append, List.cons_append, List.cons.injEq] at h
        omega
      · simp only [List.cons_append, List.nil_append, List.cons.injEq] at h
        obtain ⟨h1, h2, h3⟩ := h
        have : c.toNat = d.toNat := by omega
        rw [char_eq_of_toNat_eq this, ih h3]

theorem codeUnits_injective {a b : String} (h : codeUnits a = codeUnits b) : a = b :=
  String.ext (codeUnitsOf_injective h)

instance : IsTotal String JsLe := ⟨fun a b => unitsLe_total (codeUnits a) (codeUnits b)⟩

instance : IsTrans String JsLe := ⟨fun _ _ _ hab hbc => unitsLe_trans hab hbc⟩

instance : IsAntisymm String JsLe :=
  ⟨fun _ _ hab hba => codeUnits_injective (unitsLe_antisymm hab hba)⟩

theorem sort_eq_of_perm {k₁ k₂ : List String} (h : k₁.Perm k₂) : sort k₁ = sort k₂ := by
  unfold sort
  apply List.eq_of_perm_of_sorted (r := JsLe)
  · exact ((List.perm_insertionSort JsLe k₁).trans h).trans (List.perm_insertionSort JsLe k₂).symm
  · exact List.sorted_insertionSort JsLe k₁
  · exact List.sorted_insertionSort JsLe k₂

theorem mem_sort {k : String} {ks : List String} : k ∈ sort ks ↔ k ∈ ks :=
  (List.perm_insertionSort JsLe ks).mem_iff

theorem getOwn_eq_some_of_mem {α : Type} {o : Props α} (nd : (Object.keys o).Nodup)
    {k : String} {v : α} (h : (k, v) ∈ o) : getOwn o k = some v := by
  induction o with
  | nil => simp at h
  | cons p rest ih =>
    obtain ⟨k0, v0⟩ := p
    simp only [Object.keys, List.map_cons, List.nodup_cons, List.mem_map, not_exists] at nd
    simp only [getOwn]
    rcases List.mem_cons.1 h with h | h
    · cases h; simp
    · have hne : k0 ≠ k := by
        intro e; subst e
        exact nd.1 (k0, v) ⟨h, rfl⟩
      simp only [hne, if_false]
      exact ih nd.2 h

theorem getOwn_eq_of_same_pairs {α : Type} {p q : Props α}
    (hp : (Object.keys p).Nodup) (hq : (Object.keys q).Nodup)
    (h : ∀ kv, kv ∈ p ↔ kv ∈ q) {k : String} (hk : k ∈ Object.keys p) :
    getOwn p k = getOwn q k := by
  simp only [Object.keys, List.mem_map] at hk
  obtain ⟨⟨k0, v⟩, hmem, rfl⟩ := hk
  rw [getOwn_eq_some_of_mem hp hmem, getOwn_eq_some_of_mem hq ((h _).1 hmem)]

theorem perm_of_same_pairs {α : Type} {p q : Props α}
    (hp : (Object.keys p).Nodup) (hq : (Object.keys q).Nodup)
    (h : ∀ kv, kv ∈ p ↔ kv ∈ q) : p.Perm q :=
  (List.perm_ext_iff_of_nodup (List.Nodup.of_map _ hp) (List.Nodup.of_map _ hq)).2 h

/-- Claim C3: `generateCacheKey` does not depend on the order in which the
parameters were inserted. Two query objects that hold the same set of
(key, value) pairs, whatever the order of their properties, get the same cache
key under every prefix. -/
theorem generateCacheKey_order_independent (pfx : String) (p q : Props String)
    (hp : (Object.keys p).Nodup) (hq : (Object.keys q).Nodup)
    (h : ∀ kv, kv ∈ p ↔ kv ∈ q) :
    generateCacheKey pfx p = generateCacheKey pfx q := by
  have hperm : (Object.keys p).Perm (Object.keys q) :=
    (perm_of_same_pairs hp hq h).map Prod.fst
  have hs : sortedQuery p = sortedQuery q := by
    unfold sortedQuery
    rw [← sort_eq_of_perm hperm]
    apply List.foldl_ext
    intro obj key hkey
    rw [getOwn_eq_of_same_pairs hp hq h (mem_sort.1 hkey)]
  unfold generateCacheKey
  rw [hs]

theorem generateCacheKey_order_independent_witness :
    generateCacheKey "products" [("merk", "B1"), ("10", "x"), ("divisi", "A"), ("9", "y")]
      = generateCacheKey "products" [("9", "y"), ("divisi", "A"), ("merk", "B1"), ("10", "x")] :=
  generateCacheKey_order_independent "products" _ _ (by decide) (by decide)
    (fun kv => by simp only [List.mem_cons, List.mem_singleton, List.not_mem_nil, or_false]; tauto)


/-! ### Cache keys -/

/-- Claim C4, the failing input: a query that carries the key `__proto__`
gets the same cache key as the empty query, with or without the schema
defaults, although the two mappings differ as sets of (key, value) pairs. The
two mappings the claim names, `a: "1,2"` and `a: "1", 2: ""`, do get
different keys. -/
theorem generateCacheKey_collides_on_proto :
    generateCacheKey "products" [("__proto__", "x")] = generateCacheKey "products" []
      ∧ generateCacheKey "products" [("__proto__", "x")] = "products:\x7b\x7d"
      ∧ generateCacheKey "products" [("__proto__", "x"), ("sortBy", "kode_brg"), ("sortDir", "asc")]
        = generateCacheKey "products" [("sortBy", "kode_brg"), ("sortDir", "asc")]
      ∧ generateCacheKey "products" [("a", "1,2")]
        ≠ generateCacheKey "products" [("a", "1"), ("2", "")]
      ∧ ¬ (∀ kv : String × String, kv ∈ [("__proto__", "x")] ↔ kv ∈ []) := by
  refine ⟨by decide, by decide, by decide, by decide, ?_⟩
  intro h
  exact List.not_mem_nil _ ((h ("__proto__", "x")).1 (List.mem_singleton.2 rfl))

/-- Claim C10: the key of a single-entity read never equals the key of a
collection read, whatever the id and the query parameters are. -/
theorem cache_key_namespaces_disjoint (id : String) (q : Props String) :
    productCacheKey id ≠ generateCacheKey "products" q := by
  intro h
  have h2 := congrArg String.data h
  simp only [productCacheKey, generateCacheKey, String.data_append] at h2
  have h3 := congrArg (fun l => l.get? 7) h2
  simp at h3

/-! ### Sort resolution -/

/-- Claim C1, as stated, fails: the name `constructor` is not a logical sort
name, yet it resolves neither to a whitelisted column nor to the default. -/
theorem sortColumn_constructor_escapes :
    "constructor" ∉ sortByEnum ∧ sortColumn "constructor" ∉ whitelist
      ∧ sortColumn "constructor" ≠ .str "b.kode_brg"
      ∧ (sortColumn "constructor").text = "function Object() \x7b [native code] \x7d" := by
  decide

theorem getOwn_validSortColumns_none {sortBy : String} (h : sortBy ∉ sortByEnum) :
    getOwn validSortColumns sortBy = none := by
  simp only [sortByEnum, List.mem_cons, List.mem_singleton, List.not_mem_nil, or_false,
    not_or] at h
  obtain ⟨h1, h2, h3, h4⟩ := h
  simp [validSortColumns, getOwn, Ne.symm h1, Ne.symm h2, Ne.symm h3, Ne.symm h4]

/-- Claim C1, amended: for every `sortBy` that is not the name of a member
inherited from `Object.prototype` (every value the route schema admits is such
a string), the resolved column belongs to the whitelist, and when `sortBy` is
none of the four logical names the resolved column is the default
`b.kode_brg`. -/
theorem sortColumn_whitelisted (sortBy : String) (h : sortBy ∉ objectPrototypeKeys) :
    sortColumn sortBy ∈ whitelist
      ∧ (sortBy ∉ sortByEnum → sortColumn sortBy = .str "b.kode_brg") := by
  have hdef : sortBy ∉ sortByEnum → sortColumn sortBy = .str "b.kode_brg" := by
    intro hn
    simp [sortColumn, readProp, getOwn_validSortColumns_none hn, h, PropRead.orElse,
      PropRead.truthy]
  refine ⟨?_, hdef⟩
  by_cases hn : sortBy ∈ sortByEnum
  · simp only [sortByEnum, List.mem_cons, List.mem_singleton, List.not_mem_nil, or_false] at hn
    rcases hn with rfl | rfl | rfl | rfl <;> decide
  · rw [hdef hn]; decide

theorem sortColumn_whitelisted_witness :
    "nama_brg; DROP TABLE brg" ∉ objectPrototypeKeys
      ∧ (sortColumn "nama_brg; DROP TABLE brg" ∈ whitelist
        ∧ ("nama_brg; DROP TABLE brg" ∉ sortByEnum
          → sortColumn "nama_brg; DROP TABLE brg" = .str "b.kode_brg")) :=
  ⟨by decide, sortColumn_whitelisted "nama_brg; DROP TABLE brg" (by decide)⟩

/-! ### Sort direction -/

theorem upperChar_ne_nil (c : Char) : upperChar c ≠ [] := by
  unfold upperChar
  split <;> simp

theorem upperChars_eq_nil {l : List Char} (h : upperChars l = []) : l = [] := by
  cases l with
  | nil => rfl
  | cons c cs =>
    simp only [upperChars, List.append_eq_nil] at h
    exact absurd h.1 (upperChar_ne_nil c)

theorem upperChar_head_D {c : Char} {r t : List Char} (h : upperChar c ++ r = 'D' :: t) :
    (c = 'd' ∨ c = 'D') ∧ r = t := by
  unfold upperChar at h
  split at h <;> simp_all

theorem upperChar_head_E {c : Char} {r t : List Char} (h : upperChar c ++ r = 'E' :: t) :
    (c = 'e' ∨ c = 'E') ∧ r = t := by
  unfold upperChar at h
  split at h <;> simp_all

theorem upperChar_head_SC {c : Char} {r t : List Char}
    (h : upperChar c ++ r = 'S' :: 'C' :: t) :
    (c = 's' ∨ c = 'S' ∨ c = '\u017f') ∧ r = 'C' :: t := by
  unfold upperChar at h
  split at h <;> simp_all

theorem upperChar_head_C {c : Char} {r t : List Char} (h : upperChar c ++ r = 'C' :: t) :
    (c = 'c' ∨ c = 'C') ∧ r = t := by
  unfold upperChar at h
  split at h <;> simp_all

theorem toUpperCase_eq_DESC (s : String) :
    toUpperCase s = "DESC" ↔ s ∈ descCaseVariants ++ descLongSVariants := by
  constructor
  · intro h
    have h1 : upperChars s.data = ['D', 'E', 'S', 'C'] := congrArg String.data h
    obtain ⟨l⟩ := s
    simp only at h1
    cases l with
    | nil => simp [upperChars] at h1
    | cons c₁ l =>
      obtain ⟨hc₁, h2⟩ := upperChar_head_D h1
      cases l with
      | nil => simp [upperChars] at h2
      | cons c₂ l =>
        obtain ⟨hc₂, h3⟩ := upperChar_head_E h2
        cases l with
        | nil => simp [upperChars] at h3
        | cons c₃ l =>
          obtain ⟨hc₃, h4⟩ := upperChar_head_SC h3
          cases l with
          | nil => simp [upperChars] at h4
          | cons c₄ l =>
            obtain ⟨hc₄, h5⟩ := upperChar_head_C h4
            have h6 := upperChars_eq_nil h5
            subst h6
            rcases hc₁ with rfl | rfl <;> rcases hc₂ with rfl | rfl <;>
              rcases hc₃ with rfl | rfl | rfl <;> rcases hc₄ with rfl | rfl <;> decide
  · intro h
    simp only [descCaseVariants, descLongSVariants, List.cons_append, List.nil_append,
      List.mem_cons, List.mem_singleton, List.not_mem_nil, or_false] at h
    rcases h with h | h | h | h | h | h | h | h | h | h | h | h | h | h | h | h | h | h | h
      | h | h | h | h | h <;> subst h <;> decide

/-- Claim C9, as stated, fails: `deſc`, written with the long s, is not a
letter-case variant of `desc`, yet its direction is `DESC`. -/
theorem sortDirection_long_s :
    "de\u017fc" ∉ descCaseVariants ∧ sortDirection "de\u017fc" = "DESC" := by
  decide

/-- Claim C9, amended: for every string `sortDir` the direction is exactly
`ASC` or exactly `DESC`; it is `DESC` precisely for the sixteen letter-case
variants of `desc` and the eight spellings that put the long s (U+017F) in
place of the third letter, and `ASC` for every other string. -/
theorem sortDirection_normalises (sortDir : String) :
    (sortDirection sortDir = "ASC" ∨ sortDirection sortDir = "DESC")
      ∧ (sortDirection sortDir = "DESC" ↔ sortDir ∈ descCaseVariants ++ descLongSVariants)
      ∧ (sortDirection sortDir = "ASC" ↔ sortDir ∉ descCaseVariants ++ descLongSVariants) := by
  unfold sortDirection
  rw [← toUpperCase_eq_DESC]
  by_cases h : toUpperCase sortDir = "DESC"
  · simp [h]
  · simp [h]

/-! ### Filter builder -/

theorem buildFilters_whereConditions (a b c d e : String) :
    (buildFilters a b c d e).whereConditions
      = conditionsOf (truthy a) (truthy b) (truthy c) (truthy d) (truthy e) := by
  simp only [buildFilters, addFilter, conditionsOf]
  cases truthy a <;> cases truthy b <;> cases truthy c <;> cases truthy d <;>
    cases truthy e <;> rfl

theorem buildFilters_keys (a b c d e : String) :
    Object.keys (buildFilters a b c d e).queryParams
      = namesOf (truthy a) (truthy b) (truthy c) (truthy d) (truthy e) := by
  simp only [buildFilters, addFilter, namesOf]
  cases truthy a <;> cases truthy b <;> cases truthy c <;> cases truthy d <;>
    cases truthy e <;> rfl

theorem activeFilters_eq (search divisi merk seri warna : Option String) :
    activeFilters search divisi merk seri warna
      = namesOf (truthy (orEmpty search)) (truthy (orEmpty divisi)) (truthy (orEmpty merk))
          (truthy (orEmpty seri)) (truthy (orEmpty warna)) := by
  simp only [activeFilters, namesOf, List.filter]
  cases truthy (orEmpty search) <;> cases truthy (orEmpty divisi) <;>
    cases truthy (orEmpty merk) <;> cases truthy (orEmpty seri) <;>
    cases truthy (orEmpty warna) <;> rfl

theorem whereClause_of_flags (f₁ f₂ f₃ f₄ f₅ : Bool) :
    whereClause (conditionsOf f₁ f₂ f₃ f₄ f₅)
        = (if namesOf f₁ f₂ f₃ f₄ f₅ = [] then ""
          else "WHERE " ++ join " AND " ((namesOf f₁ f₂ f₃ f₄ f₅).map predicateOf))
      ∧ (placeholders (whereClause (conditionsOf f₁ f₂ f₃ f₄ f₅))).dedup
        = namesOf f₁ f₂ f₃ f₄ f₅ := by
  cases f₁ <;> cases f₂ <;> cases f₃ <;> cases f₄ <;> cases f₅ <;> decide

theorem buildFilters_bound (a b c d e : String) :
    getOwn (buildFilters a b c d e).queryParams "search"
        = (if truthy a then some ("%" ++ a ++ "%") else none)
      ∧ getOwn (buildFilters a b c d e).queryParams "divisi" = (if truthy b then some b else none)
      ∧ getOwn (buildFilters a b c d e).queryParams "merk" = (if truthy c then some c else none)
      ∧ getOwn (buildFilters a b c d e).queryParams "seri" = (if truthy d then some d else none)
      ∧ getOwn (buildFilters a b c d e).queryParams "warna"
        = (if truthy e then some e else none) := by
  simp only [buildFilters, addFilter]
  cases truthy a <;> cases truthy b <;> cases truthy c <;> cases truthy d <;>
    cases truthy e <;> refine ⟨?_, ?_, ?_, ?_, ?_⟩ <;> rfl

/-- Claim C2: for every combination of the five filter values (each absent,
empty or non-empty) the WHERE clause is empty when no filter is non-empty and
otherwise is `WHERE` followed by the predicates of exactly the non-empty
filters, joined by `AND` in source order, so its text depends only on which
filters are non-empty; the bound parameters have a key for exactly the
non-empty filters; a name is a placeholder of the clause exactly when it is a
bound key; and each categorical value is bound unchanged while the search
text is bound between two `%` signs. -/
theorem whereClause_exact (search divisi merk seri warna : Option String) :
    whereClause (buildFilters (orEmpty search) (orEmpty divisi) (orEmpty merk) (orEmpty seri)
        (orEmpty warna)).whereConditions
        = (if activeFilters search divisi merk seri warna = [] then ""
          else "WHERE " ++ join " AND "
            ((activeFilters search divisi merk seri warna).map predicateOf))
      ∧ Object.keys (buildFilters (orEmpty search) (orEmpty divisi) (orEmpty merk)
          (orEmpty seri) (orEmpty warna)).queryParams
        = activeFilters search divisi merk seri warna
      ∧ (∀ name : String,
          name ∈ placeholders (whereClause (buildFilters (orEmpty search) (orEmpty divisi)
            (orEmpty merk) (orEmpty seri) (orEmpty warna)).whereConditions)
          ↔ name ∈ Object.keys (buildFilters (orEmpty search) (orEmpty divisi) (orEmpty merk)
            (orEmpty seri) (orEmpty warna)).queryParams)
      ∧ getOwn (buildFilters (orEmpty search) (orEmpty divisi) (orEmpty merk) (orEmpty seri)
          (orEmpty warna)).queryParams "search"
        = (if truthy (orEmpty search) then some ("%" ++ orEmpty search ++ "%") else none)
      ∧ getOwn (buildFilters (orEmpty search) (orEmpty divisi) (orEmpty merk) (orEmpty seri)
          (orEmpty warna)).queryParams "divisi"
        = (if truthy (orEmpty divisi) then some (orEmpty divisi) else none)
      ∧ getOwn (buildFilters (orEmpty search) (orEmpty divisi) (orEmpty merk) (orEmpty seri)
          (orEmpty warna)).queryParams "merk"
        = (if truthy (orEmpty merk) then some (orEmpty merk) else none)
      ∧ getOwn (buildFilters (orEmpty search) (orEmpty divisi) (orEmpty merk) (orEmpty seri)
          (orEmpty warna)).queryParams "seri"
        = (if truthy (orEmpty seri) then some (orEmpty seri) else none)
      ∧ getOwn (buildFilters (orEmpty search) (orEmpty divisi) (orEmpty merk) (orEmpty seri)
          (orEmpty warna)).queryParams "warna"
        = (if truthy (orEmpty warna) then some (orEmpty warna) else none) := by
  have hflags := whereClause_of_flags (truthy (orEmpty search)) (truthy (orEmpty divisi))
    (truthy (orEmpty merk)) (truthy (orEmpty seri)) (truthy (orEmpty warna))
  rw [buildFilters_whereConditions, buildFilters_keys, activeFilters_eq]
  refine ⟨hflags.1, rfl, ?_, buildFilters_bound _ _ _ _ _⟩
  intro name
  rw [← hflags.2, List.mem_dedup]

/-! ### JSON round trip -/

theorem escape_control : ∀ n, n < 32 →
    unicodeEscape '0' '0' (hexDigit (n / 16)) (hexDigit (n % 16)) = some (Char.ofNat n) := by
  decide

theorem parseStringBody_quote (rest : List Char) :
    parseStringBody ('"' :: rest) = some ([], rest) := by
  rw [parseStringBody.eq_def]; simp

theorem parseStringBody_simple (e ch : Char) (cs : List Char) (he : e ≠ 'u')
    (hs : simpleEscape e = some ch) :
    parseStringBody ('\\' :: e :: cs)
      = match parseStringBody cs with
        | some (s, r) => some (ch :: s, r)
        | none => none := by
  rw [parseStringBody.eq_def]
  simp only [he, hs, if_false]
  cases parseStringBody cs <;> simp

theorem parseStringBody_unicode (a b c d ch : Char) (cs : List Char)
    (hs : unicodeEscape a b c d = some ch) :
    parseStringBody ('\\' :: 'u' :: a :: b :: c :: d :: cs)
      = match parseStringBody cs with
        | some (s, r) => some (ch :: s, r)
        | none => none := by
  rw [parseStringBody.eq_def]
  simp only [hs, if_true]
  cases parseStringBody cs <;> simp

theorem parseStringBody_plain (c : Char) (cs : List Char) (h1 : c ≠ '"') (h2 : c ≠ '\\')
    (h3 : ¬ c.toNat < 32) :
    parseStringBody (c :: cs)
      = match parseStringBody cs with
        | some (s, r) => some (c :: s, r)
        | none => none := by
  rw [parseStringBody.eq_def]
  simp only [h1, h2, h3, if_false]

theorem parseStringBody_quoteBody (l rest : List Char) :
    parseStringBody (quoteBody l ++ '"' :: rest) = some (l, rest) := by
  induction l with
  | nil => simpa [quoteBody] using parseStringBody_quote rest
  | cons c cs ih =>
    simp only [quoteBody, quoteChar]
    split
    · rename_i h; subst h
      simp only [List.cons_append, List.nil_append]
      rw [parseStringBody_simple '"' '"' _ (by decide) (by decide), ih]
    · split
      · rename_i h; subst h
        simp only [List.cons_append, List.nil_append]
        rw [parseStringBody_simple '\\' '\\' _ (by decide) (by decide), ih]
      · split
        · rename_i h
          have hc : c = Char.ofNat 8 := char_eq_of_toNat_eq (by rw [h]; rfl)
          subst hc
          simp only [List.cons_append, List.nil_append]
          rw [parseStringBody_simple 'b' (Char.ofNat 8) _ (by decide) (by decide), ih]
        · split
          · rename_i h
            have hc : c = Char.ofNat 9 := char_eq_of_toNat_eq (by rw [h]; rfl)
            subst hc
            simp only [List.cons_append, List.nil_append]
            rw [parseStringBody_simple 't' (Char.ofNat 9) _ (by decide) (by decide), ih]
          · split
            · rename_i h
              have hc : c = Char.ofNat 10 := char_eq_of_toNat_eq (by rw [h]; rfl)
              subst hc
              simp only [List.cons_append, List.nil_append]
              rw [parseStringBody_simple 'n' (Char.ofNat 10) _ (by decide) (by decide), ih]
            · split
              · rename_i h
                have hc : c = Char.ofNat 12 := char_eq_of_toNat_eq (by rw [h]; rfl)
                subst hc
                simp only [List.cons_append, List.nil_append]
                rw [parseStringBody_simple 'f' (Char.ofNat 12) _ (by decide) (by decide), ih]
              · split
                · rename_i h
                  have hc : c = Char.ofNat 13 := char_eq_of_toNat_eq (by rw [h]; rfl)
                  subst hc
                  simp only [List.cons_append, List.nil_append]
                  rw [parseStringBody_simple 'r' (Char.ofNat 13) _ (by decide) (by decide), ih]
                · split
                  · rename_i h
                    simp only [List.cons_append, List.nil_append]
                    rw [parseStringBody_unicode _ _ _ _ c _
                      (by rw [escape_control _ h, Char.ofNat_toNat]), ih]
                  · rename_i h1 h2 _ _ _ _ _ h3
                    simp only [List.cons_append, List.nil_append]
                    rw [parseStringBody_plain c _ h1 h2 h3, ih]
theorem digit_facts : ∀ d, d < 10 →
    (Char.ofNat (48 + d)).toNat = 48 + d ∧ (Char.ofNat (48 + d)).isDigit = true
      ∧ Char.ofNat (48 + d) ≠ '-' ∧ (Char.ofNat (48 + d) = '0' → d = 0) := by
  decide

theorem natDigits_ne_nil (fuel n : Nat) : natDigits fuel n ≠ [] := by
  cases fuel with
  | zero => simp [natDigits]
  | succ f =>
    simp only [natDigits]
    split <;> simp

theorem digitsValue_append (xs : List Char) (c : Char) :
    digitsValue (xs ++ [c]) = digitsValue xs * 10 + (c.toNat - 48) := by
  simp [digitsValue, List.foldl_append]

theorem digitsValue_natDigits (fuel n : Nat) (h : n ≤ fuel) :
    digitsValue (natDigits fuel n) = n := by
  induction fuel generalizing n with
  | zero =>
    have : n = 0 := by omega
    subst this
    rfl
  | succ f ih =>
    simp only [natDigits]
    split
    · rename_i hlt
      simp [digitsValue, (digit_facts n hlt).1]
    · rename_i hge
      rw [digitsValue_append, ih (n / 10) (by omega), (digit_facts (n % 10) (by omega)).1]
      omega

theorem natDigits_all_digits (fuel n : Nat) (h : n ≤ fuel) :
    ∀ c ∈ natDigits fuel n, c.isDigit = true := by
  induction fuel generalizing n with
  | zero =>
    have : n = 0 := by omega
    subst this
    simp [natDigits]
  | succ f ih =>
    simp only [natDigits]
    split
    · rename_i hlt
      simpa using (digit_facts n hlt).2.1
    · rename_i hge
      intro c hc
      rcases List.mem_append.1 hc with hc | hc
      · exact ih (n / 10) (by omega) c hc
      · rw [List.mem_singleton.1 hc]
        exact (digit_facts (n % 10) (by omega)).2.1

theorem natDigits_head (fuel n : Nat) (h : n ≤ fuel)
    (h0 : (natDigits fuel n).head? = some '0') : natDigits fuel n = ['0'] := by
  induction fuel generalizing n with
  | zero =>
    have : n = 0 := by omega
    subst this
    rfl
  | succ f ih =>
    simp only [natDigits] at h0 ⊢
    split at h0
    · rename_i hlt
      rw [if_pos hlt]
      simp only [List.head?_cons, Option.some.injEq] at h0
      have := (digit_facts n hlt).2.2.2 h0
      subst this
      rfl
    · rename_i hge
      exfalso
      have hne := natDigits_ne_nil f (n / 10)
      have hh : (natDigits f (n / 10)).head? = some '0' := by
        cases hl : natDigits f (n / 10) with
        | nil => exact absurd hl hne
        | cons x xs => rw [hl] at h0; simpa using h0
      have h1 := ih (n / 10) (by omega) hh
      have h2 := digitsValue_natDigits f (n / 10) (by omega)
      rw [h1] at h2
      simp [digitsValue] at h2
      omega

theorem takeDigits_append (ds rest : List Char) (hd : ∀ c ∈ ds, c.isDigit = true)
    (hr : ∀ c, rest.head? = some c → c.isDigit = false) :
    takeDigits (ds ++ rest) = (ds, rest) := by
  induction ds with
  | nil =>
    cases rest with
    | nil => rfl
    | cons c cs =>
      have := hr c rfl
      simp [takeDigits, this]
  | cons d ds ih =>
    have h1 : d.isDigit = true := hd d (List.mem_cons_self _ _)
    have h2 := ih (fun c hc => hd c (List.mem_cons_of_mem _ hc))
    simp [takeDigits, h1, h2]

theorem zeros_all_digits (n : Nat) : ∀ c ∈ zeros n, c.isDigit = true := by
  intro c hc
  have := List.eq_of_mem_replicate hc
  subst this
  decide

theorem dropZeros_zeros_append (a : Nat) (l : List Char) :
    dropZeros (zeros a ++ l) = dropZeros l := by
  induction a with
  | zero => rfl
  | succ a ih => simpa [zeros, List.replicate_succ, dropZeros] using ih

theorem dropZeros_length_le (l : List Char) : (dropZeros l).length ≤ l.length := by
  induction l with
  | nil => simp [dropZeros]
  | cons c cs ih =>
    simp only [dropZeros]
    split
    · simp only [List.length_cons]; omega
    · simp

theorem head_ne_zero_of_dropZeros {c : Char} {cs : List Char}
    (h : dropZeros (c :: cs) = c :: cs) : c ≠ '0' := by
  intro e
  subst e
  simp only [dropZeros, if_true] at h
  have := dropZeros_length_le cs
  rw [h] at this
  simp at this

theorem dropZeros_append {s : List Char} (hne : s ≠ []) (h : dropZeros s = s)
    (x : List Char) : dropZeros (s ++ x) = s ++ x := by
  cases s with
  | nil => exact absurd rfl hne
  | cons c cs =>
    have hc := head_ne_zero_of_dropZeros h
    simp [dropZeros, hc]

theorem dropTrailingZeros_zeros (b : Nat) : dropTrailingZeros (zeros b) = [] := by
  induction b with
  | zero => rfl
  | succ b ih =>
    have : zeros (b + 1) = '0' :: zeros b := by simp [zeros, List.replicate_succ]
    rw [this]
    simp [dropTrailingZeros, ih]

theorem dropTrailingZeros_append_zeros (l : List Char) (b : Nat) :
    dropTrailingZeros (l ++ zeros b) = dropTrailingZeros l := by
  induction l with
  | nil => simpa [dropTrailingZeros] using dropTrailingZeros_zeros b
  | cons c cs ih =>
    rw [List.cons_append, dropTrailingZeros, ih]
    rfl

theorem dropTrailingZeros_length_le (l : List Char) :
    (dropTrailingZeros l).length ≤ l.length := by
  induction l with
  | nil => simp [dropTrailingZeros]
  | cons c cs ih =>
    simp only [dropTrailingZeros]
    split
    · simp
    · simp only [List.length_cons]; omega

theorem dropTrailingZeros_split (l : List Char) :
    l = dropTrailingZeros l ++ zeros (l.length - (dropTrailingZeros l).length) := by
  induction l with
  | nil => rfl
  | cons c cs ih =>
    simp only [dropTrailingZeros]
    split
    · rename_i h
      obtain ⟨h1, h2⟩ := h
      rw [h1] at ih
      simp only [List.length_nil, Nat.sub_zero, List.nil_append] at ih ⊢
      rw [h2]
      have : zeros (List.length ('0' :: cs)) = '0' :: zeros cs.length := by
        simp [zeros, List.replicate_succ]
      rw [this, ← ih]
    · have hle := dropTrailingZeros_length_le cs
      simp only [List.length_cons, List.cons_append]
      have : cs.length + 1 - ((dropTrailingZeros cs).length + 1)
          = cs.length - (dropTrailingZeros cs).length := by omega
      rw [this, ← ih]

theorem dropTrailingZeros_eq_nil {c : Char} {cs : List Char}
    (h : dropTrailingZeros (c :: cs) = []) : c = '0' := by
  simp only [dropTrailingZeros] at h
  split at h
  · rename_i h2; exact h2.2
  · simp at h

theorem digitsValue_append_zeros (l : List Char) (b : Nat) :
    digitsValue (l ++ zeros b) = digitsValue l * 10 ^ b := by
  induction b with
  | zero => simp [zeros]
  | succ b ih =>
    have : zeros (b + 1) = zeros b ++ ['0'] := by
      simp [zeros, List.replicate_succ']
    rw [this, ← List.append_assoc, digitsValue_append, ih, pow_succ]
    have : ('0' : Char).toNat - 48 = 0 := by decide
    rw [this]
    ring


theorem canonicalDigits_spec {s : List Char} (h : canonicalDigits s = true) :
    s ≠ [] ∧ (∀ c ∈ s, c.isDigit = true) ∧ dropZeros s = s ∧ dropTrailingZeros s = s := by
  simp only [canonicalDigits, Bool.and_eq_true, Bool.not_eq_true', List.isEmpty_eq_false,
    List.all_eq_true, decide_eq_true_eq] at h
  exact ⟨h.1.1.1, h.1.1.2, h.1.2, h.2⟩

theorem mkNumber_dec (negative : Bool) (s : List Char) (a b : Nat) (e : Int)
    (hs : canonicalDigits s = true)
    (hu : isSafeInteger s ((s.length : Int) + b + e) = false) :
    mkNumber negative (zeros a ++ (s ++ zeros b)) e
      = .dec negative s ((s.length : Int) + b + e) := by
  obtain ⟨hne, _, hz, ht⟩ := canonicalDigits_spec hs
  have h1 : dropZeros (zeros a ++ (s ++ zeros b)) = s ++ zeros b := by
    rw [dropZeros_zeros_append, dropZeros_append hne hz]
  have h2 : dropTrailingZeros (s ++ zeros b) = s := by
    rw [dropTrailingZeros_append_zeros, ht]
  have h3 : ((s ++ zeros b).length : Int) + e = (s.length : Int) + b + e := by
    simp [zeros]
  simp only [mkNumber, h1, h2, h3, hne, hu, if_false, Bool.false_eq_true]

theorem parseFraction_end {rest : List Char} (hr : NumberEnd rest) :
    parseFraction rest = some ([], rest) := by
  cases rest with
  | nil => rfl
  | cons c cs =>
    have := (hr c rfl).2.1
    simp [parseFraction, this]

theorem parseExponent_end {rest : List Char} (hr : NumberEnd rest) :
    parseExponent rest = some (0, rest) := by
  cases rest with
  | nil => rfl
  | cons c cs =>
    have h := hr c rfl
    simp [parseExponent, h.2.2.1, h.2.2.2]

theorem parseExponent_text (e : Int) (rest : List Char) (hr : NumberEnd rest) :
    parseExponent (exponentText e ++ rest) = some (e, rest) := by
  have hall := natDigits_all_digits e.natAbs e.natAbs (le_refl _)
  have hne := natDigits_ne_nil e.natAbs e.natAbs
  have htake := takeDigits_append (natDigits e.natAbs e.natAbs) rest hall
    (fun c hc => (hr c hc).1)
  have hval := digitsValue_natDigits e.natAbs e.natAbs (le_refl _)
  by_cases he : e < 0
  · simp only [exponentText, he, if_true, List.cons_append, parseExponent, true_or,
      List.head?_cons, List.tail_cons, htake, hne, if_false, hval]
    simp only [Option.some.injEq, Prod.mk.injEq, and_true]
    omega
  · simp only [exponentText, he, if_false, List.cons_append, parseExponent, true_or, if_true,
      List.head?_cons, List.tail_cons, htake, hne, hval]
    simp only [Option.some.injEq, Char.reduceEq, or_true, if_true, if_false, htake, hne, hval,
      Prod.mk.injEq, and_true]
    omega


theorem parseUnsigned_eq {body intDigits rest₁ fraction rest₂ rest₃ : List Char} {e : Int}
    (h1 : takeDigits body = (intDigits, rest₁)) (hne : intDigits ≠ [])
    (hz : ¬ (intDigits.head? = some '0' ∧ intDigits.length > 1))
    (hf : parseFraction rest₁ = some (fraction, rest₂))
    (he : parseExponent rest₂ = some (e, rest₃)) :
    parseUnsigned body = some (intDigits ++ fraction, e - fraction.length, rest₃) := by
  simp only [parseUnsigned, h1, hne, hz, if_false, hf, he]

theorem parseFraction_digits (ds rest : List Char) (hne : ds ≠ [])
    (hd : ∀ c ∈ ds, c.isDigit = true) (hr : ∀ c, rest.head? = some c → c.isDigit = false) :
    parseFraction ('.' :: (ds ++ rest)) = some (ds, rest) := by
  simp [parseFraction, takeDigits_append ds rest hd hr, hne]

theorem exponentText_head (e : Int) (rest : List Char) :
    ∀ c, (exponentText e ++ rest).head? = some c → c.isDigit = false := by
  intro c hc
  simp only [exponentText, List.cons_append, List.head?_cons, Option.some.injEq] at hc
  subst hc
  decide

theorem parseUnsigned_decText (s : List Char) (n : Int) (rest : List Char)
    (hs : canonicalDigits s = true) (hr : NumberEnd rest) :
    ∃ a b e, parseUnsigned (decText s n ++ rest) = some (zeros a ++ (s ++ zeros b), e, rest)
      ∧ (s.length : Int) + b + e = n := by
  obtain ⟨hne, hd, hz, _⟩ := canonicalDigits_spec hs
  have hrd : ∀ c, rest.head? = some c → c.isDigit = false := fun c hc => (hr c hc).1
  obtain ⟨d, r, hdr⟩ : ∃ d r, s = d :: r := by
    cases s with
    | nil => exact absurd rfl hne
    | cons d r => exact ⟨d, r, rfl⟩
  have hd0 : d ≠ '0' := by
    rw [hdr] at hz
    exact head_ne_zero_of_dropZeros hz
  have hdd : d.isDigit = true := hd d (by rw [hdr]; exact List.mem_cons_self _ _)
  have hdot : ∀ (l : List Char) (c : Char), ('.' :: l).head? = some c → c.isDigit = false := by
    intro l c hc
    simp only [List.head?_cons, Option.some.injEq] at hc
    subst hc
    decide
  unfold decText
  split
  · -- all digits, then zeros
    rename_i h
    refine ⟨0, n.toNat - s.length, 0 - (([] : List Char).length : Int), ?_, ?_⟩
    · have hall : ∀ c ∈ s ++ zeros (n.toNat - s.length), c.isDigit = true := by
        intro c hc
        rcases List.mem_append.1 hc with hc | hc
        · exact hd c hc
        · exact zeros_all_digits _ c hc
      have h1 := takeDigits_append _ rest hall hrd
      have h2 := parseUnsigned_eq h1 (by simp [hne])
        (by rw [hdr]; simp [hd0]) (parseFraction_end hr) (parseExponent_end hr)
      simpa [zeros] using h2
    · simp only [List.length_nil]
      omega
  · split
    · -- digits around a decimal point
      rename_i h1 h2
      have hp : 0 < n.toNat ∧ n.toNat < s.length := by omega
      refine ⟨0, 0, 0 - ((s.drop n.toNat).length : Int), ?_, ?_⟩
      · have hall : ∀ c ∈ s.take n.toNat, c.isDigit = true :=
          fun c hc => hd c (List.mem_of_mem_take hc)
        have hall2 : ∀ c ∈ s.drop n.toNat, c.isDigit = true :=
          fun c hc => hd c (List.mem_of_mem_drop hc)
        have ht := takeDigits_append (s.take n.toNat) ('.' :: (s.drop n.toNat ++ rest)) hall
          (hdot _)
        have hne1 : s.take n.toNat ≠ [] := by
          intro e
          have := congrArg List.length e
          simp only [List.length_take, List.length_nil] at this
          omega
        have hne2 : s.drop n.toNat ≠ [] := by
          intro e
          have := congrArg List.length e
          simp only [List.length_drop, List.length_nil] at this
          omega
        have hhead : ¬ ((s.take n.toNat).head? = some '0' ∧ (s.take n.toNat).length > 1) := by
          rintro ⟨h0, _⟩
          obtain ⟨m, hm⟩ : ∃ m, n.toNat = m + 1 := ⟨n.toNat - 1, by omega⟩
          rw [hdr, hm] at h0
          simp only [List.take_succ_cons, List.head?_cons, Option.some.injEq] at h0
          exact hd0 h0
        have h3 := parseUnsigned_eq ht hne1 hhead
          (parseFraction_digits _ rest hne2 hall2 hrd) (parseExponent_end hr)
        simpa [zeros] using h3
      · simp only [List.length_drop]
        omega
    · split
      · -- zero, point, zeros, digits
        rename_i h1 h2 h3
        refine ⟨(-n).toNat + 1, 0, 0 - ((zeros (-n).toNat ++ s).length : Int), ?_, ?_⟩
        · have hall : ∀ c ∈ zeros (-n).toNat ++ s, c.isDigit = true := by
            intro c hc
            rcases List.mem_append.1 hc with hc | hc
            · exact zeros_all_digits _ c hc
            · exact hd c hc
          have ht : takeDigits ('0' :: '.' :: (zeros (-n).toNat ++ s) ++ rest)
              = (['0'], '.' :: ((zeros (-n).toNat ++ s) ++ rest)) :=
            takeDigits_append ['0'] _ (by simp) (hdot _)
          have h4 := parseUnsigned_eq ht (by simp) (by simp)
            (parseFraction_digits _ rest (by simp [hne]) hall hrd) (parseExponent_end hr)
          have hz1 : zeros ((-n).toNat + 1) = '0' :: zeros (-n).toNat := by
            simp [zeros, List.replicate_succ]
          rw [hz1]
          simpa [zeros] using h4
        · simp only [List.length_append, zeros, List.length_replicate]
          omega
      · -- exponent form
        cases r with
        | nil =>
          subst hdr
          refine ⟨0, 0, (n - 1) - (([] : List Char).length : Int), ?_, ?_⟩
          · have ht : takeDigits (d :: exponentText (n - 1) ++ rest)
                = ([d], exponentText (n - 1) ++ rest) :=
              takeDigits_append [d] _ (by simpa using hdd) (exponentText_head _ _)
            have hf : parseFraction (exponentText (n - 1) ++ rest)
                = some ([], exponentText (n - 1) ++ rest) := by
              simp [parseFraction, exponentText]
            have h4 := parseUnsigned_eq ht (by simp) (by simp [hd0]) hf
              (parseExponent_text (n - 1) rest hr)
            simpa [zeros] using h4
          · simp
        | cons r₁ rs =>
          subst hdr
          refine ⟨0, 0, (n - 1) - ((r₁ :: rs).length : Int), ?_, ?_⟩
          · have ht : takeDigits (d :: '.' :: ((r₁ :: rs) ++ exponentText (n - 1)) ++ rest)
                = ([d], '.' :: ((r₁ :: rs) ++ (exponentText (n - 1) ++ rest))) := by
              have := takeDigits_append [d] ('.' :: ((r₁ :: rs) ++ (exponentText (n - 1) ++ rest)))
                (by simpa using hdd) (hdot _)
              simpa using this
            have hall : ∀ c ∈ r₁ :: rs, c.isDigit = true :=
              fun c hc => hd c (List.mem_cons_of_mem _ hc)
            have h4 := parseUnsigned_eq ht (by simp) (by simp [hd0])
              (parseFraction_digits _ _ (by simp) hall (exponentText_head _ _))
              (parseExponent_text (n - 1) rest hr)
            simpa [zeros] using h4
          · simp only [List.length_cons]
            push_cast
            omega


theorem decText_head (s : List Char) (n : Int) (hs : canonicalDigits s = true) :
    ∃ c tl, decText s n = c :: tl ∧ c.isDigit = true := by
  obtain ⟨hne, hd, _, _⟩ := canonicalDigits_spec hs
  obtain ⟨d, r, hdr⟩ : ∃ d r, s = d :: r := by
    cases s with
    | nil => exact absurd rfl hne
    | cons d r => exact ⟨d, r, rfl⟩
  have hdd : d.isDigit = true := hd d (by rw [hdr]; exact List.mem_cons_self _ _)
  subst hdr
  unfold decText
  split
  · exact ⟨d, _, rfl, hdd⟩
  · split
    · rename_i h1 h2
      obtain ⟨m, hm⟩ : ∃ m, n.toNat = m + 1 := ⟨n.toNat - 1, by omega⟩
      rw [hm]
      exact ⟨d, _, rfl, hdd⟩
    · split
      · exact ⟨'0', _, rfl, by decide⟩
      · cases r with
        | nil => exact ⟨d, _, rfl, hdd⟩
        | cons r₁ rs => exact ⟨d, _, rfl, hdd⟩

theorem parseNumber_decimalText (negative : Bool) (s : List Char) (n : Int)
    (rest : List Char) (hs : canonicalDigits s = true) (hu : isSafeInteger s n = false)
    (hr : NumberEnd rest) :
    parseNumber (decimalText negative s n ++ rest) = some (.dec negative s n, rest) := by
  obtain ⟨a, b, e, hp, hn⟩ := parseUnsigned_decText s n rest hs hr
  obtain ⟨c, tl, hc, hcd⟩ := decText_head s n hs
  have hm := mkNumber_dec negative s a b e hs (by rw [hn]; exact hu)
  rw [hn] at hm
  have hcm : c ≠ '-' := by
    intro e2; rw [e2] at hcd; exact absurd hcd (by decide)
  cases negative with
  | true =>
    simp only [decimalText, if_true, List.cons_append, List.nil_append, parseNumber,
      List.head?_cons, decide_True, List.tail_cons, hp, hm]
  | false =>
    have h1 : (decText s n ++ rest).head? ≠ some '-' := by
      rw [hc]
      simpa using hcm
    simp only [decimalText, Bool.false_eq_true, if_false, List.nil_append, parseNumber, h1,
      decide_False, hp, hm]

theorem natDigits_dropZeros (m : Nat) (hm : 0 < m) :
    dropZeros (natDigits m m) = natDigits m m := by
  cases hl : natDigits m m with
  | nil => rfl
  | cons c cs =>
    have hc : c ≠ '0' := by
      intro e
      have h0 : (natDigits m m).head? = some '0' := by rw [hl, e]; rfl
      have h1 := natDigits_head m m (le_refl _) h0
      have h2 := digitsValue_natDigits m m (le_refl _)
      rw [h1] at h2
      simp [digitsValue] at h2
      omega
    simp [dropZeros, hc]

theorem mkNumber_natDigits (negative : Bool) (m : Nat) (hm : 0 < m)
    (hsafe : m ≤ 9007199254740991) :
    mkNumber negative (natDigits m m) 0
      = .num (if negative then -(m : Int) else (m : Int)) := by
  have h1 := natDigits_dropZeros m hm
  have hsplit := dropTrailingZeros_split (natDigits m m)
  have hle := dropTrailingZeros_length_le (natDigits m m)
  have hval : digitsValue (dropTrailingZeros (natDigits m m))
      * 10 ^ ((natDigits m m).length - (dropTrailingZeros (natDigits m m)).length) = m := by
    rw [← digitsValue_append_zeros, ← hsplit]
    exact digitsValue_natDigits m m (le_refl _)
  have hne : dropTrailingZeros (natDigits m m) ≠ [] := by
    intro e
    rw [e] at hval
    simp [digitsValue] at hval
    omega
  have hn : (((natDigits m m).length : Int) + 0).toNat = (natDigits m m).length := by simp
  have hsafe2 : isSafeInteger (dropTrailingZeros (natDigits m m))
      (((natDigits m m).length : Int) + 0) = true := by
    simp only [isSafeInteger, hn, hval, Bool.and_eq_true, decide_eq_true_eq]
    exact ⟨by omega, hsafe⟩
  simp only [mkNumber, h1, hne, if_false, hsafe2, if_true, hn, hval]

theorem parseNumber_intText (z : Int) (rest : List Char)
    (hsafe : z.natAbs ≤ 9007199254740991) (hr : NumberEnd rest) :
    parseNumber (intText z ++ rest) = some (.num z, rest) := by
  have hrd : ∀ c, rest.head? = some c → c.isDigit = false := fun c hc => (hr c hc).1
  have key : ∀ m : Nat, parseUnsigned (natDigits m m ++ rest)
      = some (natDigits m m, 0, rest) := by
    intro m
    have hall := natDigits_all_digits m m (le_refl _)
    have ht := takeDigits_append (natDigits m m) rest hall hrd
    have hz : ¬ ((natDigits m m).head? = some '0' ∧ (natDigits m m).length > 1) := by
      rintro ⟨h0, hlen⟩
      rw [natDigits_head m m (le_refl _) h0] at hlen
      simp at hlen
    have := parseUnsigned_eq ht (natDigits_ne_nil m m) hz (parseFraction_end hr)
      (parseExponent_end hr)
    simpa using this
  cases z with
  | ofNat m =>
    have hhead : (natDigits m m ++ rest).head? ≠ some '-' := by
      have hall := natDigits_all_digits m m (le_refl _)
      cases hl : natDigits m m with
      | nil => exact absurd hl (natDigits_ne_nil m m)
      | cons x xs =>
        have hx : x.isDigit = true := hall x (by rw [hl]; exact List.mem_cons_self _ _)
        simp only [List.cons_append, List.head?_cons, ne_eq, Option.some.injEq]
        intro hx2
        rw [hx2] at hx
        exact absurd hx (by decide)
    simp only [intText, parseNumber, hhead, decide_False, Bool.false_eq_true, if_false, key]
    by_cases hm : m = 0
    · subst hm
      rfl
    · have := mkNumber_natDigits false m (by omega) (by simpa using hsafe)
      simp only [this, Bool.false_eq_true, if_false]
      rfl
  | negSucc m =>
    have := mkNumber_natDigits true (m + 1) (by omega) (by simpa using hsafe)
    simp only [intText, List.cons_append, parseNumber, List.head?_cons, decide_True, if_true,
      List.tail_cons, key, this]
    simp [Int.negSucc_eq]

theorem ownKeyOrder_cons {k : String} {rest : List String}
    (h : ownKeyOrder (k :: rest) = true) :
    k ∉ rest ∧ ownKeyOrder rest = true
      ∧ ∀ k₂ ∈ rest, ∀ j, arrayIndex? k₂ = some j → ∃ i, arrayIndex? k = some i ∧ i < j := by
  rw [ownKeyOrder] at h
  simp only [Bool.and_eq_true, Bool.not_eq_true'] at h
  obtain ⟨⟨h1, h2⟩, h3⟩ := h
  refine ⟨?_, h3, ?_⟩
  · intro hk
    have : rest.contains k = true := by simpa using hk
    rw [this] at h1
    exact absurd h1 (by simp)
  · intro k₂ hk₂ j hj
    cases hi : arrayIndex? k with
    | none =>
      rw [hi] at h2
      have := List.all_eq_true.1 h2 k₂ hk₂
      rw [hj] at this
      simp at this
    | some i =>
      rw [hi] at h2
      have := List.all_eq_true.1 h2 k₂ hk₂
      rw [hj] at this
      exact ⟨i, rfl, by simpa using this⟩

theorem ownKeyOrder_not_any {α : Type} (acc : Props α) (k : String) (tail : List String)
    (h : ownKeyOrder (acc.map Prod.fst ++ k :: tail) = true) :
    acc.any (fun p => p.1 == k) = false := by
  induction acc with
  | nil => rfl
  | cons a acc ih =>
    rw [List.map_cons, List.cons_append] at h
    obtain ⟨h1, h3, _⟩ := ownKeyOrder_cons h
    simp only [List.any_cons, Bool.or_eq_false_iff]
    refine ⟨?_, ih h3⟩
    have hne : a.1 ≠ k := by
      intro e
      exact h1 (by rw [e]; simp)
    simpa using hne

theorem ownKeyOrder_insertIndexed {α : Type} (acc : Props α) (k : String) (v : α)
    (tail : List String) (i : Nat) (hi : arrayIndex? k = some i)
    (h : ownKeyOrder (acc.map Prod.fst ++ k :: tail) = true) :
    insertIndexed i k v acc = acc ++ [(k, v)] := by
  induction acc with
  | nil => rfl
  | cons a acc ih =>
    rw [List.map_cons, List.cons_append] at h
    obtain ⟨_, h3, h2⟩ := ownKeyOrder_cons h
    obtain ⟨j, hj, hlt⟩ := h2 k (by simp) i hi
    simp only [insertIndexed, hj, hlt, if_true, List.cons_append, ih h3]

theorem defineOwn_append {α : Type} (acc : Props α) (k : String) (v : α) (tail : List String)
    (h : ownKeyOrder (acc.map Prod.fst ++ k :: tail) = true) :
    defineOwn acc k v = acc ++ [(k, v)] := by
  unfold defineOwn
  rw [ownKeyOrder_not_any acc k tail h]
  simp only [Bool.false_eq_true, if_false]
  cases hi : arrayIndex? k with
  | none => rfl
  | some i => exact ownKeyOrder_insertIndexed acc k v tail i hi h

theorem foldl_defineOwn {α : Type} (acc ms : Props α)
    (h : ownKeyOrder ((acc ++ ms).map Prod.fst) = true) :
    ms.foldl (fun o m => defineOwn o m.1 m.2) acc = acc ++ ms := by
  induction ms generalizing acc with
  | nil => simp
  | cons m ms ih =>
    simp only [List.foldl_cons]
    have h1 : defineOwn acc m.1 m.2 = acc ++ [m] := by
      have := defineOwn_append acc m.1 m.2 (ms.map Prod.fst) (by simpa using h)
      simpa using this
    rw [h1, ih (acc ++ [m]) (by simpa using h)]
    simp
theorem skipWs_opening {c : Char} (h : Opening c) (cs : List Char) :
    skipWs (c :: cs) = c :: cs := by
  obtain ⟨h1, h2, h3, h4, _, _⟩ := h
  simp [skipWs, h1, h2, h3, h4]

theorem digit_not_special {c : Char} (h : c.isDigit = true) :
    Opening c ∧ c ≠ '"' ∧ c ≠ '[' ∧ c ≠ '\x7b' ∧ c ≠ 'n' ∧ c ≠ 't' ∧ c ≠ 'f' := by
  refine ⟨⟨?_, ?_, ?_, ?_, ?_, ?_⟩, ?_, ?_, ?_, ?_, ?_, ?_⟩ <;>
    (intro e; rw [e] at h; exact absurd h (by decide))

theorem intText_head (z : Int) :
    ∃ c tl, intText z = c :: tl ∧ (c = '-' ∨ c.isDigit = true) := by
  cases z with
  | ofNat n =>
    have hne := natDigits_ne_nil n n
    have hall := natDigits_all_digits n n (le_refl _)
    cases hl : natDigits n n with
    | nil => exact absurd hl hne
    | cons x xs =>
      exact ⟨x, xs, by simp [intText, hl], Or.inr (hall x (by rw [hl]; exact List.mem_cons_self _ _))⟩
  | negSucc n => exact ⟨'-', _, rfl, Or.inl rfl⟩

theorem numberEnd_of_delimited {rest : List Char} (h : Delimited rest) : NumberEnd rest := by
  intro c hc
  rcases h with h | ⟨d, tail, h, hd⟩
  · subst h; simp at hc
  · subst h
    simp only [List.head?_cons, Option.some.injEq] at hc
    subst hc
    rcases hd with rfl | rfl | rfl <;> decide

theorem decimalText_head (negative : Bool) (s : List Char) (n : Int)
    (hs : canonicalDigits s = true) :
    ∃ c tl, decimalText negative s n = c :: tl ∧ (c = '-' ∨ c.isDigit = true) := by
  cases negative with
  | true => exact ⟨'-', decText s n, rfl, Or.inl rfl⟩
  | false =>
    obtain ⟨c, tl, hc, hd⟩ := decText_head s n hs
    exact ⟨c, tl, by simp [decimalText, hc], Or.inr hd⟩

theorem parseValue_number (fuel : Nat) (text : List Char) (v : JValue) (rest : List Char)
    (hhead : ∃ c tl, text = c :: tl ∧ (c = '-' ∨ c.isDigit = true))
    (hp : parseNumber (text ++ rest) = some (v, rest)) :
    parseValue (fuel + 1) (text ++ rest) = some (v, rest) := by
  obtain ⟨c, tl, hc, hd⟩ := hhead
  rw [hc] at hp ⊢
  have hspec : Opening c ∧ c ≠ '"' ∧ c ≠ '[' ∧ c ≠ '\x7b' ∧ c ≠ 'n' ∧ c ≠ 't' ∧ c ≠ 'f' := by
    rcases hd with rfl | hd
    · unfold Opening; decide
    · exact digit_not_special hd
  obtain ⟨ho, h1, h2, h3, h4, h5, h6⟩ := hspec
  rw [parseValue]
  simp only [List.cons_append, skipWs_opening ho, h1, h2, h3, h4, h5, h6, if_false] at hp ⊢
  rw [hp]

theorem ser_head (v : JValue) (hs : jsonSafe v = true) :
    ∃ c tl, ser v = c :: tl ∧ Opening c := by
  cases v with
  | undefined => simp [jsonSafe] at hs
  | null => exact ⟨'n', _, rfl, by unfold Opening; decide⟩
  | bool b => cases b <;> exact ⟨_, _, rfl, by unfold Opening; decide⟩
  | num n =>
    obtain ⟨c, tl, hc, hd⟩ := intText_head n
    refine ⟨c, tl, by simp [ser, hc], ?_⟩
    rcases hd with rfl | hd
    · unfold Opening; decide
    · exact (digit_not_special hd).1
  | dec negative digits point =>
    simp only [jsonSafe, Bool.and_eq_true] at hs
    obtain ⟨c, tl, hc, hd⟩ := decimalText_head negative digits point hs.1
    refine ⟨c, tl, by simp [ser, hc], ?_⟩
    rcases hd with rfl | hd
    · unfold Opening; decide
    · exact (digit_not_special hd).1
  | str s => exact ⟨'"', _, rfl, by unfold Opening; decide⟩
  | arr items => exact ⟨'[', serItems true items ++ [']'], by simp [ser], by unfold Opening; decide⟩
  | obj props =>
    exact ⟨'\x7b', serProps true props ++ ['\x7d'], by simp [ser], by unfold Opening; decide⟩

theorem serItems_false_cons (w : JValue) (ws : List JValue) :
    serItems false (w :: ws) = ',' :: (ser w ++ serItems false ws) := by
  simp [serItems]

theorem serItems_true_cons (w : JValue) (ws : List JValue) :
    serItems true (w :: ws) = ser w ++ serItems false ws := by
  simp [serItems]

theorem serProps_cons (first : Bool) (k : String) (v : JValue) (ms : List (String × JValue))
    (hv : jsonSafe v = true) :
    serProps first ((k, v) :: ms)
      = (if first then [] else [',']) ++ quote k ++ ':' :: ser v ++ serProps false ms := by
  cases v with
  | undefined => simp [jsonSafe] at hv
  | null => simp [serProps]
  | bool b => simp [serProps]
  | num n => simp [serProps]
  | dec negative digits point => simp [serProps]
  | str s => simp [serProps]
  | arr items => simp [serProps]
  | obj props => simp [serProps]

theorem delimited_items (vs : List JValue) (rest : List Char) :
    Delimited (serItems false vs ++ ']' :: rest) := by
  cases vs with
  | nil => exact Or.inr ⟨']', rest, by simp [serItems], Or.inr (Or.inl rfl)⟩
  | cons w ws => exact Or.inr ⟨',', _, by rw [serItems_false_cons]; rfl, Or.inl rfl⟩

theorem delimited_props (ms : List (String × JValue)) (rest : List Char)
    (hs : jsonSafeProps ms = true) :
    Delimited (serProps false ms ++ '\x7d' :: rest) := by
  cases ms with
  | nil => exact Or.inr ⟨'\x7d', rest, by simp [serProps], Or.inr (Or.inr rfl)⟩
  | cons m ms =>
    obtain ⟨k, v⟩ := m
    simp only [jsonSafeProps, Bool.and_eq_true] at hs
    exact Or.inr ⟨',', _, by rw [serProps_cons _ _ _ _ hs.1]; rfl, Or.inl rfl⟩

theorem ser_length_pos (v : JValue) (hs : jsonSafe v = true) : 0 < (ser v).length := by
  obtain ⟨c, tl, hc, _⟩ := ser_head v hs
  simp [hc]

theorem roundTrip_value_step (fuel : Nat) (ih : RoundTripAt fuel) (v : JValue)
    (rest : List Char) (hs : jsonSafe v = true) (hf : (ser v).length ≤ fuel + 1)
    (hr : Delimited rest) :
    parseValue (fuel + 1) (ser v ++ rest) = some (v, rest) := by
  obtain ⟨_, ihI, ihM⟩ := ih
  cases v with
  | undefined => simp [jsonSafe] at hs
  | null =>
    rw [parseValue]
    simp [ser, skipWs, expect]
  | bool b =>
    rw [parseValue]
    cases b <;> simp [ser, skipWs, expect]
  | num n =>
    simp only [jsonSafe, decide_eq_true_eq] at hs
    exact parseValue_number fuel (intText n) (.num n) rest (intText_head n)
      (parseNumber_intText n rest hs (numberEnd_of_delimited hr))
  | dec negative digits point =>
    simp only [jsonSafe, Bool.and_eq_true, Bool.not_eq_true'] at hs
    exact parseValue_number fuel (decimalText negative digits point) _ rest
      (decimalText_head negative digits point hs.1)
      (parseNumber_decimalText negative digits point rest hs.1 hs.2 (numberEnd_of_delimited hr))
  | str s =>
    rw [parseValue]
    have := parseStringBody_quoteBody s.data rest
    simp [ser, quote, skipWs, this]
  | arr items =>
    rw [parseValue]
    cases items with
    | nil => simp [ser, serItems, skipWs]
    | cons w ws =>
      simp only [jsonSafe, jsonSafeItems, Bool.and_eq_true] at hs
      have hlen : (ser w ++ serItems false ws).length + 1 ≤ fuel := by
        simp only [ser, serItems_true_cons, List.length_cons, List.length_append,
          List.length_singleton, List.length_nil] at hf ⊢
        omega
      have hI := ihI w ws rest hs.1 hs.2 hlen
      obtain ⟨c, tl, hc, ho⟩ := ser_head w hs.1
      have h1 : skipWs ('[' :: (c :: tl ++ serItems false ws ++ ']' :: rest))
          = '[' :: (c :: tl ++ serItems false ws ++ ']' :: rest) := by simp [skipWs]
      have h2 : c ≠ ']' := ho.2.2.2.2.1
      rw [hc] at hI
      simp only [ser, serItems_true_cons, hc, List.cons_append, List.append_assoc, List.nil_append]
      simp only [List.cons_append, List.append_assoc] at h1 hI
      rw [h1]
      simp only [skipWs_opening ho, h2, if_false, hI]
      simp
  | obj props =>
    rw [parseValue]
    cases props with
    | nil => simp [ser, serProps, skipWs]
    | cons m ms =>
      obtain ⟨k, v⟩ := m
      simp only [jsonSafe, jsonSafeProps, Bool.and_eq_true] at hs
      obtain ⟨hord, hv, hms⟩ := hs
      have hser := serProps_cons true k v ms hv
      have hlen : (quote k ++ ':' :: ser v ++ serProps false ms).length + 1 ≤ fuel := by
        simp only [ser, hser, List.length_cons, List.length_append,
          List.length_singleton, List.length_nil, if_true] at hf ⊢
        omega
      have hM := ihM k v ms rest hv hms hlen
      have hfold := foldl_defineOwn [] ((k, v) :: ms) (by simpa using hord)
      simp only [ser, hser, quote, if_true, List.cons_append, List.append_assoc,
        List.nil_append] at hM ⊢
      have h1 : ∀ l : List Char, skipWs ('\x7b' :: l) = '\x7b' :: l := by
        intro l; simp [skipWs]
      have h2 : ∀ l : List Char, skipWs ('"' :: l) = '"' :: l := by
        intro l; simp [skipWs]
      rw [h1]
      simp only [h2, hM]
      simp [hfold]

theorem roundTrip_items_step (fuel : Nat) (ih : RoundTripAt fuel) (v : JValue)
    (vs : List JValue) (rest : List Char) (hv : jsonSafe v = true)
    (hvs : jsonSafeItems vs = true)
    (hf : (ser v ++ serItems false vs).length + 1 ≤ fuel + 1) :
    parseItems (fuel + 1) (ser v ++ serItems false vs ++ ']' :: rest)
      = some (v :: vs, rest) := by
  obtain ⟨ihV, ihI, _⟩ := ih
  rw [parseItems]
  have hV := ihV v (serItems false vs ++ ']' :: rest) hv
    (by simp only [List.length_append] at hf; omega) (delimited_items vs rest)
  rw [List.append_assoc, hV]
  cases vs with
  | nil => simp [serItems, skipWs]
  | cons w ws =>
    simp only [jsonSafeItems, Bool.and_eq_true] at hvs
    have hI := ihI w ws rest hvs.1 hvs.2 (by
      simp only [serItems_false_cons, List.length_append, List.length_cons] at hf ⊢
      omega)
    have h1 : ∀ l : List Char, skipWs (',' :: l) = ',' :: l := by
      intro l; simp [skipWs]
    simp only [serItems_false_cons, List.cons_append, h1, if_true]
    rw [hI]

theorem roundTrip_members_step (fuel : Nat) (ih : RoundTripAt fuel) (k : String) (v : JValue)
    (ms : List (String × JValue)) (rest : List Char) (hv : jsonSafe v = true)
    (hms : jsonSafeProps ms = true)
    (hf : (quote k ++ ':' :: ser v ++ serProps false ms).length + 1 ≤ fuel + 1) :
    parseMembers (fuel + 1) (quote k ++ ':' :: ser v ++ serProps false ms ++ '\x7d' :: rest)
      = some ((k, v) :: ms, rest) := by
  obtain ⟨ihV, _, ihM⟩ := ih
  rw [parseMembers]
  have hV := ihV v (serProps false ms ++ '\x7d' :: rest) hv
    (by simp only [List.length_append, List.length_cons] at hf; omega)
    (delimited_props ms rest hms)
  have hk := parseStringBody_quoteBody k.data (':' :: (ser v ++ (serProps false ms ++ '\x7d' :: rest)))
  have h1 : ∀ l : List Char, skipWs ('"' :: l) = '"' :: l := by
    intro l; simp [skipWs]
  have h2 : ∀ l : List Char, skipWs (':' :: l) = ':' :: l := by
    intro l; simp [skipWs]
  simp only [quote, List.cons_append, List.append_assoc, List.nil_append, h1, if_true, hk, h2, hV]
  cases ms with
  | nil => simp [serProps, skipWs]
  | cons m ms =>
    obtain ⟨k₂, v₂⟩ := m
    simp only [jsonSafeProps, Bool.and_eq_true] at hms
    have hser := serProps_cons false k₂ v₂ ms hms.1
    have hM := ihM k₂ v₂ ms rest hms.1 hms.2 (by
      simp only [hser, List.length_append, List.length_cons, Bool.false_eq_true, if_false,
        List.length_singleton] at hf ⊢
      omega)
    have h3 : ∀ l : List Char, skipWs (',' :: l) = ',' :: l := by
      intro l; simp [skipWs]
    simp only [hser, Bool.false_eq_true, if_false, List.cons_append, List.append_assoc,
      List.nil_append, h3, if_true] at hM ⊢
    simp [hM]

theorem roundTrip_all (fuel : Nat) : RoundTripAt fuel := by
  induction fuel with
  | zero =>
    refine ⟨?_, ?_, ?_⟩
    · intro v rest hs hf _
      have := ser_length_pos v hs
      omega
    · intro v vs rest _ _ hf
      omega
    · intro k v ms rest _ _ hf
      omega
  | succ f ih =>
    exact ⟨fun v rest hs hf hr => roundTrip_value_step f ih v rest hs hf hr,
      fun v vs rest hv hvs hf => roundTrip_items_step f ih v vs rest hv hvs hf,
      fun k v ms rest hv hms hf => roundTrip_members_step f ih k v ms rest hv hms hf⟩

/-- Reading back what `JSON.stringify` wrote gives the value again. -/
theorem parse_stringify (v : JValue) (hs : jsonSafe v = true) :
    ∃ text, JSON.stringify v = some text ∧ JSON.parse text = some v := by
  have hrt := (roundTrip_all ((ser v).length + 1)).1 v [] hs (by omega) (Or.inl rfl)
  refine ⟨String.mk (ser v), ?_, ?_⟩
  · cases v with
    | undefined => simp [jsonSafe] at hs
    | _ => rfl
  · simp only [JSON.parse]
    rw [List.append_nil] at hrt
    rw [hrt]
    simp [skipWs]

/-! ### Handlers -/

theorem jsonSafeItems_map_obj (rows : List (Props JValue))
    (h : ∀ row ∈ rows, jsonSafe (.obj row) = true) :
    jsonSafeItems (rows.map JValue.obj) = true := by
  induction rows with
  | nil => rfl
  | cons r rs ih =>
    simp only [List.map_cons, jsonSafeItems, Bool.and_eq_true]
    exact ⟨h r (List.mem_cons_self _ _), ih (fun row hr => h row (List.mem_cons_of_mem _ hr))⟩

theorem jsonSafe_pagedResponse (rows : List (Props JValue)) (total : JValue)
    (hrows : ∀ row ∈ rows, jsonSafe (.obj row) = true) (htotal : jsonSafe total = true) :
    jsonSafe (pagedResponse rows total) = true := by
  have h1 := jsonSafeItems_map_obj rows hrows
  have h2 : ownKeyOrder ["data", "metadata"] = true := by decide
  have h3 : ownKeyOrder ["total", "allRecords"] = true := by decide
  simp [pagedResponse, jsonSafe, jsonSafeProps, h1, h2, h3, htotal]

theorem stringify_truthy (v : JValue) (text : String) (hs : jsonSafe v = true)
    (h : JSON.stringify v = some text) : truthy text = true := by
  have hne : text ≠ "" := by
    intro e
    subst e
    cases v with
    | undefined => simp [JSON.stringify] at h
    | _ =>
      simp only [JSON.stringify, Option.some.injEq] at h
      have h2 := congrArg String.data h
      obtain ⟨c, tl, hc, _⟩ := ser_head _ hs
      simp only at h2
      rw [hc] at h2
      simp at h2
  simpa [truthy] using hne

/-- The response object of a miss is `data` with the rows and `metadata` with
`total` and `allRecords: true`, in that order. -/
theorem pagedResponse_shape (rows : List (Props JValue)) (total : JValue) :
    pagedResponse rows total
      = .obj [("data", .arr (rows.map JValue.obj)),
              ("metadata", .obj [("total", total), ("allRecords", .bool true)])] :=
  rfl

/-- The body of a `catch` block: `error`, `message` and, in development only,
`detail`. -/
theorem errorBody_shape (message err : String) :
    errorBody message true err
        = .obj [("error", .str "Database Error"), ("message", .str message),
                ("detail", .str err)]
      ∧ errorBody message false err
        = .obj [("error", .str "Database Error"), ("message", .str message),
                ("detail", .undefined)] :=
  ⟨rfl, rfl⟩

/-- The two TTL settings: the variable when it is a non-empty string, else 300
and 600 seconds; no other name is defined. -/
theorem cacheTTL_values (env : Env) :
    member (cacheTTL env) "products"
        = (match env.envProductsTTL with
          | some s => if s = "" then JValue.num 300 else JValue.str s
          | none => JValue.num 300)
      ∧ member (cacheTTL env) "productDetail"
        = (match env.envProductDetailTTL with
          | some s => if s = "" then JValue.num 600 else JValue.str s
          | none => JValue.num 600)
      ∧ member (cacheTTL env) "product" = .undefined := by
  refine ⟨?_, ?_, rfl⟩
  · cases h : env.envProductsTTL with
    | none => simp [member, cacheTTL, getOwn, envOr, h]
    | some s => by_cases hs : s = "" <;> simp [member, cacheTTL, getOwn, envOr, h, truthy, hs]
  · cases h : env.envProductDetailTTL with
    | none => simp [member, cacheTTL, getOwn, envOr, h]
    | some s => by_cases hs : s = "" <;> simp [member, cacheTTL, getOwn, envOr, h, truthy, hs]

/-- The queries of a miss: both texts carry the WHERE clause of the filter
builder applied to the five filter values, the data query is ordered by the
resolved column and direction, and the parameters are the bound filter
values. -/
theorem queryPlan_fields (query : Props String) :
    (queryPlan query).countText
        = countQuery (whereClause (buildFilters (orEmpty (getOwn query "search"))
            (orEmpty (getOwn query "divisi")) (orEmpty (getOwn query "merk"))
            (orEmpty (getOwn query "seri")) (orEmpty (getOwn query "warna"))).whereConditions)
      ∧ (queryPlan query).dataText
        = dataQuery (whereClause (buildFilters (orEmpty (getOwn query "search"))
            (orEmpty (getOwn query "divisi")) (orEmpty (getOwn query "merk"))
            (orEmpty (getOwn query "seri")) (orEmpty (getOwn query "warna"))).whereConditions)
            (sortColumn ((getOwn query "sortBy").getD "kode_brg")).text
            (sortDirection ((getOwn query "sortDir").getD "asc"))
      ∧ (queryPlan query).params
        = (buildFilters (orEmpty (getOwn query "search"))
            (orEmpty (getOwn query "divisi")) (orEmpty (getOwn query "merk"))
            (orEmpty (getOwn query "seri")) (orEmpty (getOwn query "warna"))).queryParams :=
  ⟨rfl, rfl, rfl⟩

set_option maxRecDepth 100000 in
/-- The SQL texts of a request without filters and of a request filtered by
division and sorted by price, descending. -/
theorem queryPlan_samples :
    (queryPlan []).countText
        = "\n        SELECT COUNT(*) AS total\n        FROM brg b\n        LEFT JOIN divisi d ON d.kode = b.div\n        LEFT JOIN kelompok k ON k.kode = b.dept\n        LEFT JOIN kategori kt ON kt.kode = b.kategori\n        LEFT JOIN clas c ON c.kode = b.clas\n        \n      "
      ∧ (queryPlan [("divisi", "A"), ("sortBy", "harga_brg"), ("sortDir", "desc")]).dataText
        = "\n        SELECT \n          b.kode_brg,\n          b.nama_brg,\n          b.hrg_sup_sbl_ppn,\n          b.hrg2,\n          b.hrg_konsumen as harga_brg,\n          d.kode AS kode_div,\n          d.nm_div AS klp,\n          k.kode AS kode_merk,\n          k.kelompok AS merk_brg,\n          kt.kode AS kode_seri,\n          kt.nama_kat AS seri_brg,\n          c.kode AS kode_warna,\n          c.nm_class AS warna_brg,\n          b.jml_barang as jml_brg,\n          b.link_gbr\n        FROM brg b\n        LEFT JOIN divisi d ON d.kode = b.div\n        LEFT JOIN kelompok k ON k.kode = b.dept\n        LEFT JOIN kategori kt ON kt.kode = b.kategori\n        LEFT JOIN clas c ON c.kode = b.clas\n        WHERE d.kode = @divisi\n        ORDER BY b.hrg_konsumen DESC\n      "
      ∧ (queryPlan [("divisi", "A"), ("sortBy", "harga_brg"), ("sortDir", "desc")]).params
        = [("divisi", "A")] := by
  refine ⟨?_, ?_, ?_⟩ <;> decide

set_option maxRecDepth 100000 in
/-- Claim C5, as stated, fails: with a cache client whose `get` is rejected
and a store that answers, `GET /products` replies 500 and runs no store query,
although the same request with no cache client replies 200. -/
theorem cache_get_failure_gives_500 :
    (productsHandler (sampleEnv getFailingClient) sampleQuery).statuses = [500]
      ∧ (productsHandler (sampleEnv getFailingClient) sampleQuery).queryCount = 0
      ∧ (productsHandler { sampleEnv getFailingClient with redis := none }
          sampleQuery).statuses = [200] := by
  refine ⟨?_, ?_, ?_⟩ <;> rfl

/-- Claim C5, amended: with a cache client installed, a rejected cache `get`
makes either handler reply 500 with the generic error body of its `catch`
block and run no store query; when instead the lookup misses, the store
answers and the cache `set` is rejected, the first reply of either handler is
the 200 with exactly the body it builds when no cache client is present, and
the cache is left as it was. -/
theorem cache_failure_outcomes (env : Env) (client : RedisClient) (query : Props String)
    (id : String) (hr : env.redis = some client) :
    (∀ err, client.getError = some err →
        (productsHandler env query).trace
            = [.cacheGet (generateCacheKey "products" query),
               .send 500 (errorBody "Error retrieving products" env.development err)]
          ∧ (productHandler env id).trace
            = [.cacheGet (productCacheKey id),
               .send 500 (errorBody "Error retrieving product details" env.development err)])
      ∧ (∀ err countRow countRest rows,
          client.getError = none → client.entries (generateCacheKey "products" query) = none →
          client.setError = some err →
          env.store (queryPlan query).countText (queryPlan query).params
            = .ok (countRow :: countRest) →
          env.store (queryPlan query).dataText (queryPlan query).params = .ok rows →
          (productsHandler env query).firstSend
              = some (200, pagedResponse rows (member countRow "total"))
            ∧ (productsHandler { env with redis := none } query).firstSend
              = some (200, pagedResponse rows (member countRow "total"))
            ∧ (productsHandler env query).redis = some client)
      ∧ (∀ err product rest,
          client.getError = none → client.entries (productCacheKey id) = none →
          client.setError = some err →
          env.store productQuery [("id", id)] = .ok (product :: rest) →
          (productHandler env id).firstSend = some (200, .obj product)
            ∧ (productHandler { env with redis := none } id).firstSend = some (200, .obj product)
            ∧ (productHandler env id).redis = some client) := by
  refine ⟨?_, ?_, ?_⟩
  · intro err hg
    simp [productsHandler, productHandler, cacheLookup, hr, RedisClient.get, hg, catchBlock]
  · intro err countRow countRest rows hg he hs hc hd
    simp [productsHandler, cacheLookup, hr, RedisClient.get, hg, he, executeQuery, hc, hd,
      populate, RedisClient.set, hs, catchBlock, Outcome.firstSend, Outcome.statuses]
  · intro err product rest hg he hs hp
    simp [productHandler, cacheLookup, hr, RedisClient.get, hg, he, executeQuery, hp,
      populate, RedisClient.set, hs, catchBlock, Outcome.firstSend, Outcome.statuses]

set_option maxRecDepth 100000 in
theorem cache_failure_outcomes_witness :
    (productsHandler (sampleEnv getFailingClient) sampleQuery).trace
        = [.cacheGet (generateCacheKey "products" sampleQuery),
           .send 500 (errorBody "Error retrieving products" false "ECONNREFUSED")]
      ∧ (productsHandler (sampleEnv setFailingClient) sampleQuery).firstSend
        = some (200, pagedResponse sampleRows (member [("total", .num 1)] "total"))
      ∧ (productHandler (sampleEnv setFailingClient) "A1").firstSend
        = some (200, .obj [("kode_brg", .str "A1"), ("jml_brg", .num 4)]) :=
  ⟨((cache_failure_outcomes (sampleEnv getFailingClient) getFailingClient sampleQuery "A1"
      rfl).1 "ECONNREFUSED" rfl).1,
    ((cache_failure_outcomes (sampleEnv setFailingClient) setFailingClient sampleQuery "A1"
      rfl).2.1 "ECONNREFUSED" [("total", .num 1)] [] sampleRows rfl rfl rfl (by rfl)
      (by rfl)).1,
    ((cache_failure_outcomes (sampleEnv setFailingClient) setFailingClient sampleQuery "A1"
      rfl).2.2 "ECONNREFUSED" [("kode_brg", .str "A1"), ("jml_brg", .num 4)] [] rfl rfl rfl
      (by rfl)).1⟩

/-- Claim C6: when the cache holds nothing under the key of a query and the
store answers the count query with a first row that has a `total` and the data
query with rows, all of them well-formed JSON values (numbers with fractions
included), the first `GET /products` request looks the key up, runs the count
query and then the data query, replies 200 with the object
`data: rows, metadata: (total, allRecords: true)`, the rows in the order of the
data query and `total` taken from the count row, and stores the JSON text of
that object under the key, with the products TTL as expiry; an identical
second request runs no store query, whatever the store would answer, and
replies with what `JSON.parse` reads from the stored text, which is the first
response itself. -/
theorem miss_then_hit (env : Env) (client : RedisClient) (query : Props String)
    (countRow : Props JValue) (countRest rows : List (Props JValue)) (total : JValue)
    (store₂ : String → Props String → Except String (List (Props JValue)))
    (hr : env.redis = some client) (hg : client.getError = none)
    (hs : client.setError = none)
    (hmiss : client.entries (generateCacheKey "products" query) = none)
    (hcount : env.store (queryPlan query).countText (queryPlan query).params
      = .ok (countRow :: countRest))
    (htotalRow : getOwn countRow "total" = some total)
    (hdata : env.store (queryPlan query).dataText (queryPlan query).params = .ok rows)
    (hrows : ∀ row ∈ rows, jsonSafe (.obj row) = true)
    (htotal : jsonSafe total = true) :
    ∃ response text client₂,
      response = JValue.obj [("data", .arr (rows.map JValue.obj)),
        ("metadata", .obj [("total", total), ("allRecords", .bool true)])]
      ∧ JSON.stringify response = some text
      ∧ (productsHandler env query).trace
        = [.cacheGet (generateCacheKey "products" query),
           .query (queryPlan query).countText (queryPlan query).params,
           .query (queryPlan query).dataText (queryPlan query).params,
           .send 200 response,
           .cacheSet (generateCacheKey "products" query) text
             (match env.envProductsTTL with
              | some s => if s = "" then JValue.num 300 else JValue.str s
              | none => JValue.num 300)]
      ∧ (productsHandler env query).redis = some client₂
      ∧ (client₂.entries (generateCacheKey "products" query)).map CacheEntry.value = some text
      ∧ (productsHandler { env with redis := some client₂, store := store₂ } query).trace
        = [.cacheGet (generateCacheKey "products" query), .send 200 response]
      ∧ (productsHandler { env with redis := some client₂, store := store₂ } query).queryCount = 0
      ∧ JSON.parse text = some response := by
  have hshape := pagedResponse_shape rows total
  have hmember : member countRow "total" = total := by simp [member, htotalRow]
  have httl := (cacheTTL_values env).1
  obtain ⟨text, htext, hparse⟩ :=
    parse_stringify _ (jsonSafe_pagedResponse rows _ hrows htotal)
  have htruthy := stringify_truthy _ _ (jsonSafe_pagedResponse rows _ hrows htotal) htext
  refine ⟨pagedResponse rows total, text, { client with
      entries := fun k => if k = generateCacheKey "products" query then
        some { value := text, expiry := member (cacheTTL env) "products" }
        else client.entries k }, hshape, htext, ?_, ?_, ?_, ?_, ?_, hparse⟩
  · rw [← httl]
    simp [productsHandler, cacheLookup, hr, RedisClient.get, hg, hmiss, executeQuery, hcount,
      hdata, populate, RedisClient.set, hs, htext, hmember]
  · simp [productsHandler, cacheLookup, hr, RedisClient.get, hg, hmiss, executeQuery, hcount,
      hdata, populate, RedisClient.set, hs, htext, hmember]
  · simp
  · simp [productsHandler, cacheLookup, RedisClient.get, hg, htruthy, hparse]
  · simp [productsHandler, cacheLookup, RedisClient.get, hg, htruthy, hparse,
      Outcome.queryCount]

set_option maxRecDepth 100000 in
theorem miss_then_hit_witness :
    ∃ response text client₂,
      response = JValue.obj [("data", .arr [.obj [("kode_brg", .str "A1"),
          ("harga_brg", .dec false ['1', '2', '5', '0', '0', '5'] 5), ("jml_brg", .num 4)]]),
        ("metadata", .obj [("total", .num 2), ("allRecords", .bool true)])]
      ∧ JSON.stringify response = some text
      ∧ (productsHandler (pricedEnv emptyClient) sampleQuery).redis = some client₂
      ∧ (productsHandler { pricedEnv emptyClient with
            redis := some client₂, store := failingStore } sampleQuery).trace
        = [.cacheGet (generateCacheKey "products" sampleQuery), .send 200 response]
      ∧ JSON.parse text = some response :=
  let ⟨response, text, client₂, h0, h1, _, h3, _, h5, _, h7⟩ :=
    miss_then_hit (pricedEnv emptyClient) emptyClient sampleQuery [("total", .num 2)] []
      pricedRows (.num 2) failingStore rfl rfl rfl rfl (by rfl) rfl (by rfl)
      (by intro row hrow
          have : row = [("kode_brg", .str "A1"),
              ("harga_brg", .dec false ['1', '2', '5', '0', '0', '5'] 5),
              ("jml_brg", .num 4)] := by
            simpa [pricedRows] using hrow
          subst this
          decide)
      (by decide)
  ⟨response, text, client₂, h0, h1, h3, h5, h7⟩

set_option maxRecDepth 100000 in
/-- The JSON text of a response with a fractional price, and reading it
back. -/
theorem priced_response_text :
    JSON.stringify (pagedResponse pricedRows (.num 2))
        = some "\x7b\"data\":[\x7b\"kode_brg\":\"A1\",\"harga_brg\":12500.5,\"jml_brg\":4\x7d],\"metadata\":\x7b\"total\":2,\"allRecords\":true\x7d\x7d"
      ∧ (JSON.parse "\x7b\"data\":[\x7b\"kode_brg\":\"A1\",\"harga_brg\":12500.5,\"jml_brg\":4\x7d],\"metadata\":\x7b\"total\":2,\"allRecords\":true\x7d\x7d").isSome = true := by
  refine ⟨by rfl, by rfl⟩

/-- Claim C7: when the cache holds nothing under the key of an id (or no cache
client is installed) and the store returns no row for that id, the handler of
`GET /products/:id` replies exactly once, with status 404 and the body
`error: 'Not Found'`, `message: 'Product with ID <id> not found'`, after one
store query, issues no cache `set`, and leaves the cache as it was. -/
theorem product_not_found (env : Env) (id : String)
    (hmiss : ∀ client, env.redis = some client →
      client.getError = none ∧ client.entries (productCacheKey id) = none)
    (hstore : env.store productQuery [("id", id)] = .ok []) :
    (productHandler env id).firstSend
        = some (404, .obj [("error", .str "Not Found"),
            ("message", .str ("Product with ID " ++ id ++ " not found"))])
      ∧ (productHandler env id).statuses = [404]
      ∧ (productHandler env id).queryCount = 1
      ∧ (productHandler env id).setCount = 0
      ∧ (productHandler env id).redis = env.redis := by
  cases hr : env.redis with
  | none =>
    simp [productHandler, cacheLookup, hr, executeQuery, hstore, Outcome.firstSend,
      Outcome.statuses, Outcome.queryCount, Outcome.setCount]
  | some client =>
    obtain ⟨hg, he⟩ := hmiss client hr
    simp [productHandler, cacheLookup, hr, RedisClient.get, hg, he, executeQuery, hstore,
      Outcome.firstSend, Outcome.statuses, Outcome.queryCount, Outcome.setCount]

set_option maxRecDepth 100000 in
theorem product_not_found_witness :
    (productHandler (sampleEnv emptyClient) "xyz").firstSend
        = some (404, .obj [("error", .str "Not Found"),
            ("message", .str ("Product with ID " ++ "xyz" ++ " not found"))])
      ∧ (productHandler (sampleEnv emptyClient) "xyz").statuses = [404]
      ∧ (productHandler (sampleEnv emptyClient) "xyz").queryCount = 1
      ∧ (productHandler (sampleEnv emptyClient) "xyz").setCount = 0
      ∧ (productHandler (sampleEnv emptyClient) "xyz").redis = (sampleEnv emptyClient).redis :=
  product_not_found (sampleEnv emptyClient) "xyz"
    (fun client h => by
      have : client = emptyClient := by simpa [sampleEnv] using h.symm
      subst this
      exact ⟨rfl, rfl⟩)
    (by rfl)

set_option maxRecDepth 100000 in
/-- Claim C8, the failing input: with no TTL variable set, a request for the
stored product `A1` replies with the row and then calls the cache `set` with
key `product:A1` and the JSON text of the row, but the expiry it passes is
`undefined`: the handler reads `cacheTTL.product`, while the configuration
defines `cacheTTL.productDetail` (600) next to `cacheTTL.products` (300). -/
theorem product_expiry_undefined :
    (productHandler (sampleEnv emptyClient) "A1").trace
        = [.cacheGet "product:A1", .query productQuery [("id", "A1")],
           .send 200 (.obj [("kode_brg", .str "A1"), ("jml_brg", .num 4)]),
           .cacheSet "product:A1" "\x7b\"kode_brg\":\"A1\",\"jml_brg\":4\x7d" .undefined]
      ∧ member (cacheTTL (sampleEnv emptyClient)) "productDetail" = .num 600
      ∧ member (cacheTTL (sampleEnv emptyClient)) "products" = .num 300 := by
  refine ⟨?_, rfl, rfl⟩
  rfl

end ProductsGateway
